import Mathlib

/-!
# Fluxly-CCS — verification of the request classification and proxy-forwarding engine

Shallow embedding of the Git CORS proxy's core logic:

* the strict six-predicate Git Smart HTTP classifier (`isGitRequest` and the six
  shape predicates from the Elysia strict engine),
* the broad heuristic Git detector (`broadIsGitRequest`, from the detection
  utilities / detection plugin),
* the origin validator (`isOriginAllowedWith`, from the CORS utilities),
* the proxy URL resolver (`parseProxyUrl`),
* the header transformers (`prepareProxyHeadersWith`, `rewriteLocation`, ...),
* the forwarding engine handlers (`universalHandler`, `optionsHandler`,
  `gitCorsProxyHandler`, `makeProxyRequestBody`).

HTTP requests are modelled as records of the components the code reads: method,
URL pathname, raw query string, decoded search parameters, a header list with
case-insensitive first-match lookup (standard header access semantics), and an
optional opaque body.  JavaScript plain objects used as header records are
modelled as ordered association lists where assignment overwrites an existing
key in place (exact, case-sensitive key match) and otherwise appends.
-/

/-- The pieces of a parsed URL that the origin validator reads: the hostname and
the (ignored) port.  The WHATWG URL parser itself is external library code, so
functions that parse origins are parameterized by an arbitrary parsing function
`String → Option UrlParts` (`none` models the `new URL` constructor throwing). -/
structure UrlParts where
  hostname : String
  port : Option String
deriving DecidableEq

/-- An inbound HTTP request, reduced to the components the proxy core reads.
`search` is the raw query string exactly as received (`""` or `"?..."`),
`searchParams` the decoded query parameters, `headers` the header multimap,
`url` the full request URL (used only in diagnostic bodies), and `body` the
opaque request body (`none` when the request has no body). -/
structure Req where
  method : String
  pathname : String
  search : String
  searchParams : List (String × String)
  headers : List (String × String)
  url : String
  body : Option String
deriving DecidableEq

/-- `sub` occurs as a contiguous sublist of `l` (at any position). -/
def listOccursIn (sub : List Char) : List Char → Bool
  | [] => sub.isEmpty
  | c :: t => sub.isPrefixOf (c :: t) || listOccursIn sub t

/-- JavaScript `String.prototype.includes`: `sub` occurs as a substring of `s`.
(Char-list implementation so that concrete instances reduce in the kernel.) -/
def strIncludes (s sub : String) : Bool :=
  listOccursIn sub.toList s.toList

/-- JavaScript `String.prototype.endsWith`. -/
def strEndsWith (s suffix : String) : Bool :=
  suffix.toList.reverse.isPrefixOf s.toList.reverse

/-- JavaScript `String.prototype.startsWith`. -/
def strStartsWith (s pre : String) : Bool :=
  pre.toList.isPrefixOf s.toList

/-- ASCII lowercasing, the model of JavaScript `String.prototype.toLowerCase`
on header names. -/
def strToLower (s : String) : String :=
  String.mk (s.toList.map Char.toLower)

/-- Drop the first `n` characters (JavaScript `String.prototype.slice(n)`). -/
def strDrop (s : String) (n : Nat) : String :=
  String.mk (s.toList.drop n)

/-- Case-insensitive header lookup, first-match semantics: the model of
`request.headers.get(name)` (`none` models `null`). -/
def hGet (hs : List (String × String)) (name : String) : Option String :=
  (hs.find? (fun p => strToLower p.1 == strToLower name)).map (fun p => p.2)

/-- Query-parameter lookup, first-match, case-sensitive: the model of
`url.searchParams.get(name)`. -/
def spGet (ps : List (String × String)) (name : String) : Option String :=
  (ps.find? (fun p => p.1 == name)).map (fun p => p.2)

/-! ## Strict Git Smart HTTP classifier (Elysia strict engine) -/

/-- Shape 1: CORS preflight for ref discovery — `OPTIONS` to a path ending
`/info/refs` with query `service` equal to `git-upload-pack` or
`git-receive-pack`. -/
def isPreflightInfoRefs (r : Req) : Bool :=
  r.method == "OPTIONS" &&
    strEndsWith r.pathname "/info/refs" &&
    (spGet r.searchParams "service" == some "git-upload-pack" ||
      spGet r.searchParams "service" == some "git-receive-pack")

/-- Shape 2: ref discovery — `GET` to a path ending `/info/refs` with the same
`service` condition. -/
def isInfoRefs (r : Req) : Bool :=
  r.method == "GET" &&
    strEndsWith r.pathname "/info/refs" &&
    (spGet r.searchParams "service" == some "git-upload-pack" ||
      spGet r.searchParams "service" == some "git-receive-pack")

/-- Shape 3: CORS preflight for pull — `OPTIONS` to a path ending
`git-upload-pack` whose `access-control-request-headers` header contains the
substring `content-type`. -/
def isPreflightPull (r : Req) : Bool :=
  let accessControlHeaders := (hGet r.headers "access-control-request-headers").getD ""
  r.method == "OPTIONS" &&
    strIncludes accessControlHeaders "content-type" &&
    strEndsWith r.pathname "git-upload-pack"

/-- Shape 4: pull negotiation — `POST` to a path ending `git-upload-pack` with
`content-type` exactly `application/x-git-upload-pack-request`. -/
def isPull (r : Req) : Bool :=
  r.method == "POST" &&
    hGet r.headers "content-type" == some "application/x-git-upload-pack-request" &&
    strEndsWith r.pathname "git-upload-pack"

/-- Shape 5: CORS preflight for push — `OPTIONS` to a path ending
`git-receive-pack` whose `access-control-request-headers` header contains the
substring `content-type`. -/
def isPreflightPush (r : Req) : Bool :=
  let accessControlHeaders := (hGet r.headers "access-control-request-headers").getD ""
  r.method == "OPTIONS" &&
    strIncludes accessControlHeaders "content-type" &&
    strEndsWith r.pathname "git-receive-pack"

/-- Shape 6: push negotiation — `POST` to a path ending `git-receive-pack` with
`content-type` exactly `application/x-git-receive-pack-request`. -/
def isPush (r : Req) : Bool :=
  r.method == "POST" &&
    hGet r.headers "content-type" == some "application/x-git-receive-pack-request" &&
    strEndsWith r.pathname "git-receive-pack"

/-- The strict classifier: a request is Git exactly when at least one of the six
Smart HTTP shapes matches (boolean OR of the six predicates). -/
def isGitRequest (r : Req) : Bool :=
  isPreflightInfoRefs r ||
    isInfoRefs r ||
    isPreflightPull r ||
    isPull r ||
    isPreflightPush r ||
    isPush r

/-! ## Broad heuristic Git detector (detection utilities / detection plugin) -/

/-- The recognized Git service names. -/
def GIT_SERVICES : List String := ["git-upload-pack", "git-receive-pack"]

/-- Path substrings that mark a request as Git for the broad detector. -/
def GIT_PATHS : List String := ["/info/refs", ".git/"]

/-- User-agent prefixes that mark a request as Git for the broad detector. -/
def GIT_USER_AGENTS : List String := ["git/"]

/-- The URL carries a `service` query parameter naming a recognized Git
service. -/
def hasGitServiceParameter (r : Req) : Bool :=
  match spGet r.searchParams "service" with
  | none => false
  | some service => GIT_SERVICES.contains service

/-- The pathname contains one of the Git path patterns as a substring. -/
def hasGitPath (r : Req) : Bool :=
  GIT_PATHS.any (fun pattern => strIncludes r.pathname pattern)

/-- The `user-agent` header (defaulted to `""` when absent) starts with one of
the Git user-agent prefixes. -/
def hasGitUserAgent (r : Req) : Bool :=
  let userAgent := (hGet r.headers "user-agent").getD ""
  GIT_USER_AGENTS.any (fun pattern => strStartsWith userAgent pattern)

/-- The broad heuristic detector: service parameter, path pattern, or
user-agent — the HTTP method is never consulted. -/
def broadIsGitRequest (r : Req) : Bool :=
  hasGitServiceParameter r || hasGitPath r || hasGitUserAgent r

/-! ## Origin validator (CORS utilities) -/

/-- `isOriginAllowed`, parameterized by the URL parser: allow when the origin is
absent (or empty, which the JavaScript falsiness test `!origin` also treats as
absent); reject when the origin does not parse; allow loopback hostnames when
the flag is set, ignoring the port; otherwise exact string membership in the
allow-list. -/
def isOriginAllowedWith (parseUrl : String → Option UrlParts)
    (origin : Option String) (allowedOrigins : List String)
    (allowLocalhost : Bool) : Bool :=
  match origin with
  | none => true
  | some s =>
    if s == "" then true
    else
      match parseUrl s with
      | none => false
      | some u =>
        if allowLocalhost && (u.hostname == "localhost" || u.hostname == "127.0.0.1") then
          true
        else
          allowedOrigins.contains s

/-- Split a character list at the first occurrence of `sep` (`none` when `sep`
does not occur). -/
def breakOnSub (sep : List Char) : List Char → Option (List Char × List Char)
  | [] => if sep.isEmpty then some ([], []) else none
  | c :: t =>
    if sep.isPrefixOf (c :: t) then some ([], (c :: t).drop sep.length)
    else
      match breakOnSub sep t with
      | some (a, b) => some (c :: a, b)
      | none => none

/-- A minimal concrete URL parser standing in for the runtime's WHATWG
`new URL` on origin-shaped strings (`scheme://host[:port]`): it requires a
nonempty scheme, the `://` separator and a nonempty host, and fails on
everything else — in particular on the empty string, which the WHATWG parser
also rejects.  It is used only to instantiate witnesses and counterexamples at
concrete origins where its verdict agrees with the WHATWG parser. -/
def parseOriginUrl (s : String) : Option UrlParts :=
  match breakOnSub "://".toList s.toList with
  | none => none
  | some (scheme, rest) =>
    if scheme.isEmpty || rest.isEmpty then none
    else
      let hostport := rest.takeWhile (fun c => c != '/')
      let host := hostport.takeWhile (fun c => c != ':')
      if host.isEmpty then none
      else
        match hostport.dropWhile (fun c => c != ':') with
        | [] => some ⟨String.mk host, none⟩
        | _ :: p =>
          if p.contains ':' then none
          else some ⟨String.mk host, some (String.mk p)⟩

/-! ## Proxy URL resolver -/

/-- The result of parsing a proxy path `/domain/rest`. -/
structure ProxyUrlParts where
  domain : String
  remainingPath : String
  targetUrl : String
deriving DecidableEq

/-- First match of the JavaScript regular expression `\/([^\/]+)\/(.*)`, the
pattern `path.match(/\/([^\/]+)\/(.*)/)` scans for: at the first position with
a `/` followed by a nonempty run of non-`/` characters followed by another `/`,
capture that run (the domain) and everything after the second `/` (the rest).
`.*` is modelled as the whole remainder of the string: URL pathnames contain no
newline (the WHATWG parser removes the characters `.` would stop at), and
backtracking inside `[^\/]+` can never produce a match that the maximal run
misses, because the character after a shortened run is a non-`/` character. -/
def scanProxyMatch : List Char → Option (List Char × List Char)
  | [] => none
  | c :: rest =>
    if c == '/' then
      let dom := rest.takeWhile (fun d => d != '/')
      match dom, rest.dropWhile (fun d => d != '/') with
      | _ :: _, '/' :: tail => some (dom, tail)
      | _, _ => scanProxyMatch rest
    else
      scanProxyMatch rest

/-- `parseProxyUrl`: split the pathname into domain and remaining path, choose
`http` for domains in the insecure-origins list and `https` otherwise, and
build the target URL with the raw query string appended verbatim. -/
def parseProxyUrl (pathname search : String) (insecureOrigins : List String) :
    Option ProxyUrlParts :=
  match scanProxyMatch pathname.toList with
  | none => none
  | some (dom, rest) =>
    let domain := String.mk dom
    let remainingPath := String.mk rest
    let protocol := if insecureOrigins.contains domain then "http" else "https"
    some
      { domain := domain, remainingPath := remainingPath,
        targetUrl := protocol ++ "://" ++ domain ++ "/" ++ remainingPath ++ search }

/-! ## Header records

JavaScript plain objects used as header records (`proxyHeaders[...] = v`):
ordered association lists where assignment overwrites an existing key in place
(exact key match) and otherwise appends at the end. -/

/-- Exact-key lookup in a header record (`proxyHeaders[k]`,
`undefined` modelled as `none`). -/
def recordGet (r : List (String × String)) (k : String) : Option String :=
  (r.find? (fun p => p.1 == k)).map (fun p => p.2)

/-- Assignment `r[k] = v`: overwrite in place when the exact key exists,
append otherwise. -/
def recordSet (r : List (String × String)) (k v : String) : List (String × String) :=
  match r with
  | [] => [(k, v)]
  | (k', v') :: rest =>
    if k' == k then (k, v) :: rest else (k', v') :: recordSet rest k v

/-! ## Outbound header transformer -/

/-- The allow-list of request headers forwarded upstream (constants module of
the Hono engine). -/
def ALLOWED_PROXY_HEADERS : List String :=
  ["accept-encoding", "accept-language", "accept", "authorization",
   "cache-control", "connection", "content-length", "content-type",
   "git-protocol", "pragma", "range", "referer", "user-agent"]

/-- The forced upstream user-agent of the Hono engine. -/
def DEFAULT_GIT_USER_AGENT : String := "git/@hono-git/cors-proxy"

/-- The allow-list used inline by the Elysia modular engine's
`prepareProxyHeaders` (same names as `ALLOWED_PROXY_HEADERS`). -/
def elysiaAllowedHeaders : List String :=
  ["accept-encoding", "accept-language", "accept", "authorization",
   "cache-control", "connection", "content-length", "content-type",
   "git-protocol", "pragma", "range", "referer", "user-agent"]

/-- The extended allow-list of the Elysia strict engine (`gitAllowHeaders`). -/
def gitAllowHeaders : List String :=
  ["accept-encoding", "accept-language", "accept", "access-control-allow-origin",
   "authorization", "cache-control", "connection", "content-length",
   "content-type", "dnt", "git-protocol", "pragma", "range", "referer",
   "user-agent", "x-authorization", "x-http-method-override", "x-requested-with"]

/-- The copy loop: for each allow-listed name, look the header up
case-insensitively in the request and, when present with a truthy (nonempty)
value, store it under the allow-list's (lowercase) spelling. -/
def copyAllowedHeaders (reqHeaders : List (String × String))
    (allowed : List String) : List (String × String) :=
  allowed.foldl
    (fun acc name =>
      match hGet reqHeaders name with
      | some v => if v == "" then acc else recordSet acc name v
      | none => acc)
    []

/-- The defensive re-copy of the authorization header:
`request.headers.get('Authorization') || request.headers.get('authorization')`,
stored under the capitalized key `Authorization` when truthy. -/
def addAuthHeader (reqHeaders : List (String × String))
    (acc : List (String × String)) : List (String × String) :=
  let a1 := (hGet reqHeaders "Authorization").getD ""
  let authHeader := if a1 == "" then (hGet reqHeaders "authorization").getD "" else a1
  if authHeader == "" then acc else recordSet acc "Authorization" authHeader

/-- The user-agent fixup: overwrite `user-agent` with the proxy identifier
unless the stored value already starts with `git/`. -/
def fixUserAgent (ua : String) (acc : List (String × String)) :
    List (String × String) :=
  match recordGet acc "user-agent" with
  | some v => if strStartsWith v "git/" then acc else recordSet acc "user-agent" ua
  | none => recordSet acc "user-agent" ua

/-- `prepareProxyHeaders`, parameterized (as the Elysia modular engine's version
literally is) by the allow-list, and by the forced user-agent string: copy the
allow-listed headers, re-copy `authorization` case-insensitively under the key
`Authorization`, then force the user-agent. -/
def prepareProxyHeadersWith (allowed : List String) (ua : String)
    (reqHeaders : List (String × String)) : List (String × String) :=
  fixUserAgent ua (addAuthHeader reqHeaders (copyAllowedHeaders reqHeaders allowed))

/-- The Hono engine's `prepareProxyHeaders` (proxy utilities module). -/
def prepareProxyHeaders (reqHeaders : List (String × String)) :
    List (String × String) :=
  prepareProxyHeadersWith ALLOWED_PROXY_HEADERS DEFAULT_GIT_USER_AGENT reqHeaders

/-- The Elysia modular engine's `prepareProxyHeaders` applied to its inline
allow-list and user-agent constant. -/
def elysiaPrepareProxyHeaders (reqHeaders : List (String × String)) :
    List (String × String) :=
  prepareProxyHeadersWith elysiaAllowedHeaders "git/@elysia-git/cors-proxy" reqHeaders

/-- The Elysia strict engine's outbound headers: the allow-list copy loop over
`gitAllowHeaders` and the user-agent fixup, with no authorization re-copy. -/
def part8ProxyHeaders (reqHeaders : List (String × String)) :
    List (String × String) :=
  fixUserAgent "git/@elysia-git/cors-proxy" (copyAllowedHeaders reqHeaders gitAllowHeaders)

/-! ## Inbound header transformer: redirect location rewriting -/

/-- `location.replace(/^https?:\/\//, '/')`: replace a leading `https://` or
`http://` with a single `/`; leave every other value unchanged. -/
def rewriteLocation (loc : String) : String :=
  if strStartsWith loc "https://" then "/" ++ strDrop loc 8
  else if strStartsWith loc "http://" then "/" ++ strDrop loc 7
  else loc

/-- `location.replace(/^https?:\//, '')` (response-processing utilities of the
single-file Hono port): strip a leading `https:/` or `http:/`. -/
def rewriteLocationHono (loc : String) : String :=
  if strStartsWith loc "https:/" then strDrop loc 7
  else if strStartsWith loc "http:/" then strDrop loc 6
  else loc

/-- `handleRedirectResponse`: when the upstream response has a `location`
header, set the outgoing `location` header to its rewritten value. -/
def handleRedirectResponse (upstreamHeaders : List (String × String))
    (respHeaders : List (String × String)) : List (String × String) :=
  match hGet upstreamHeaders "location" with
  | some loc => recordSet respHeaders "location" (rewriteLocation loc)
  | none => respHeaders

/-! ## Forwarding engine -/

/-- The informational JSON body returned by the Elysia modular engine for
non-Git, non-POST requests. -/
structure NonGitInfo where
  message : String
  url : String
  method : String
  isGit : Bool
  architecture : String
deriving DecidableEq

/-- A response body: plain text or the informational JSON object. -/
inductive RespBody
  | text (s : String)
  | json (info : NonGitInfo)
deriving DecidableEq

/-- The upstream fetch a handler decides to issue: method, resolved target URL,
outbound headers, and the body payload attached to the call (`none` when no
body is attached). -/
structure ProxyCall where
  method : String
  targetUrl : String
  headers : List (String × String)
  body : Option String
deriving DecidableEq

/-- A handler outcome: a terminal response (status, response headers set so
far, body), or the decision to forward upstream. -/
inductive Outcome
  | reject (status : Nat) (headers : List (String × String)) (body : RespBody)
  | forward (headers : List (String × String)) (call : ProxyCall)
deriving DecidableEq

/-- The immutable per-process configuration snapshot the engine reads: parsed
allow-list, loopback flag, and parsed insecure-origins list. -/
structure Config where
  allowedOrigins : List String
  allowLocalhost : Bool
  insecureOrigins : List String

/-- The `origin` value a handler works with:
`request.headers.get('origin') || undefined` (absent or empty becomes
`undefined`). -/
def originOf (r : Req) : Option String :=
  match hGet r.headers "origin" with
  | some v => if v == "" then none else some v
  | none => none

/-- The CORS headers the Elysia header plugin sets for an allowed origin
(default options: methods `GET, POST, OPTIONS`, the inline allow-list,
max-age 86400, no credentials; the response origin defaults to `*`). -/
def pluginCorsHeaderList (origin : Option String) : List (String × String) :=
  [("Access-Control-Allow-Origin", origin.getD "*"),
   ("Access-Control-Allow-Methods", "GET, POST, OPTIONS"),
   ("Access-Control-Allow-Headers", String.intercalate ", " elysiaAllowedHeaders),
   ("Access-Control-Max-Age", "86400")]

/-- The Elysia modular engine's `OPTIONS /*` handler: `addPreflightHeaders`
validates the origin; on success it sets the CORS headers and status 204, on
failure it sets status 403 and no headers; the handler body is empty. -/
def optionsHandler (parseUrl : String → Option UrlParts) (cfg : Config)
    (r : Req) : Nat × List (String × String) × String :=
  let origin := originOf r
  if isOriginAllowedWith parseUrl origin cfg.allowedOrigins cfg.allowLocalhost then
    (204, pluginCorsHeaderList origin, "")
  else
    (403, [], "")

/-- The Elysia modular engine's universal `.all("/*")` handler together with
its `handleGitProxy`: validate the origin (403 on failure, before any CORS
header is set), detect Git requests with the broad detector (non-Git POST →
403 text, other non-Git → 200 informational JSON), then resolve the proxy URL
(400 on failure) and forward with the original method, the prepared outbound
headers, and the raw request body. -/
def universalHandler (parseUrl : String → Option UrlParts) (cfg : Config)
    (r : Req) : Outcome :=
  let origin := originOf r
  if !(isOriginAllowedWith parseUrl origin cfg.allowedOrigins cfg.allowLocalhost) then
    .reject 403 [] (.text "Forbidden - Origin not allowed")
  else
    let cors := pluginCorsHeaderList origin
    if !(broadIsGitRequest r) then
      if r.method == "POST" then
        .reject 403 cors (.text "Forbidden - Not a Git request")
      else
        .reject 200 cors
          (.json
            { message := "Not a Git request", url := r.url, method := r.method,
              isGit := false, architecture := "modular-plugins" })
    else
      match parseProxyUrl r.pathname r.search cfg.insecureOrigins with
      | none => .reject 400 cors (.text "Invalid proxy URL format. Use /domain.com/path/to/repo")
      | some parts =>
        .forward cors
          { method := r.method, targetUrl := parts.targetUrl,
            headers := elysiaPrepareProxyHeaders r.headers, body := r.body }

/-- The Elysia strict engine's `.all("/*")` handler (`gitCorsProxy`): reject
non-Git requests (strict classifier) with 403, answer Git OPTIONS preflights
200 with an empty body without contacting upstream, then resolve the proxy URL
(400 on failure) and forward; the body is attached for every method except GET
and HEAD.  (Its CORS handling lives in the framework's `cors` plugin, outside
this handler.) -/
def gitCorsProxyHandler (insecureOrigins : List String) (r : Req) : Outcome :=
  if !(isGitRequest r) then
    .reject 403 [] (.text "Forbidden - Not a Git request")
  else if r.method == "OPTIONS" then
    .reject 200 [] (.text "")
  else
    match parseProxyUrl r.pathname r.search insecureOrigins with
    | none => .reject 400 [] (.text "Invalid proxy URL format. Use /domain.com/path/to/repo")
    | some parts =>
      .forward []
        { method := r.method, targetUrl := parts.targetUrl,
          headers := part8ProxyHeaders r.headers,
          body := if r.method != "GET" && r.method != "HEAD" then r.body else none }

/-- The body-selection logic of the Hono engine's `makeProxyRequest`: only
POST, PUT and PATCH requests read the incoming body, and only when a body
exists and has not already been consumed (cloning or buffering both hand the
same payload to the upstream call). -/
def makeProxyRequestBody (r : Req) (bodyUsed : Bool) : Option String :=
  if r.method == "POST" || r.method == "PUT" || r.method == "PATCH" then
    if !(r.body == none) && !bodyUsed then r.body else none
  else
    none

/-- The allow-list of the single-file Hono port's `prepareUpstreamHeaders`
(constants module: `ALLOWED_HEADERS`). -/
def ALLOWED_HEADERS : List String :=
  ["accept-encoding", "accept-language", "accept", "access-control-allow-origin",
   "authorization", "cache-control", "connection", "content-length",
   "content-type", "dnt", "git-protocol", "pragma", "range", "referer",
   "user-agent", "x-authorization", "x-http-method-override", "x-requested-with"]

/-- The forced upstream user-agent of the single-file Hono port
(`GIT_USER_AGENT`). -/
def GIT_USER_AGENT : String := "git/@isomorphic-git/cors-proxy"

/-- The single-file Hono port's `prepareUpstreamHeaders`: the allow-list copy
loop over `ALLOWED_HEADERS` followed by the user-agent fixup, with no
authorization re-copy. -/
def prepareUpstreamHeaders (reqHeaders : List (String × String)) :
    List (String × String) :=
  fixUserAgent GIT_USER_AGENT (copyAllowedHeaders reqHeaders ALLOWED_HEADERS)

/-- The value the copy loop stores for a header name: the case-insensitive
lookup result when present and nonempty (JavaScript truthiness), `none`
otherwise. -/
def gvAt (reqHeaders : List (String × String)) (name : String) : Option String :=
  match hGet reqHeaders name with
  | some v => if v == "" then none else some v
  | none => none

/-- The (nonempty) authorization value the defensive re-copy works with. -/
def authVal (reqHeaders : List (String × String)) : Option String :=
  gvAt reqHeaders "authorization"

/-! ## Full `Headers.get` semantics

`hGet` above is first-match lookup, which coincides with the runtime's
`Headers.get` on header lists without duplicate case-insensitive names — every
ordinary inbound request.  The full Fetch semantics joins *all* values stored
under case-insensitively equal names with `", "`; the difference is observable
exactly when a transformer is re-applied to its own output carrying one name
under two capitalizations, so the re-application questions are modelled with
the faithful `headersGet` below. -/

/-- Fetch `Headers.get`: collect every entry whose name matches
case-insensitively, in insertion order, and join the values with `", "`
(`none` when no entry matches). -/
def headersGet (hs : List (String × String)) (name : String) : Option String :=
  match (hs.filter (fun p => strToLower p.1 == strToLower name)).map
      (fun p => p.2) with
  | [] => none
  | v :: vs => some (String.intercalate ", " (v :: vs))

/-- JavaScript truthiness filter on an optional header value: an empty string
counts as absent (`if (value)`). -/
def truthy (o : Option String) : Option String :=
  match o with
  | some v => if v == "" then none else some v
  | none => none

/-- The allow-list copy loop, reading the request with full `Headers.get`
semantics. -/
def copyAllowedHeadersJoin (reqHeaders : List (String × String))
    (allowed : List String) : List (String × String) :=
  allowed.foldl
    (fun acc name =>
      match headersGet reqHeaders name with
      | some v => if v == "" then acc else recordSet acc name v
      | none => acc)
    []

/-- The defensive authorization re-copy, reading the request with full
`Headers.get` semantics. -/
def addAuthHeaderJoin (reqHeaders : List (String × String))
    (acc : List (String × String)) : List (String × String) :=
  let a1 := (headersGet reqHeaders "Authorization").getD ""
  let authHeader :=
    if a1 == "" then (headersGet reqHeaders "authorization").getD "" else a1
  if authHeader == "" then acc else recordSet acc "Authorization" authHeader

/-- `prepareProxyHeadersWith` under full `Headers.get` read semantics. -/
def prepareProxyHeadersJoinWith (allowed : List String) (ua : String)
    (reqHeaders : List (String × String)) : List (String × String) :=
  fixUserAgent ua
    (addAuthHeaderJoin reqHeaders (copyAllowedHeadersJoin reqHeaders allowed))

/-- The Hono engine's `prepareProxyHeaders` under full `Headers.get` read
semantics. -/
def prepareProxyHeadersJoin (reqHeaders : List (String × String)) :
    List (String × String) :=
  prepareProxyHeadersJoinWith ALLOWED_PROXY_HEADERS DEFAULT_GIT_USER_AGENT
    reqHeaders

/-- The single-file Hono port's `prepareUpstreamHeaders` under full
`Headers.get` read semantics. -/
def prepareUpstreamHeadersJoin (reqHeaders : List (String × String)) :
    List (String × String) :=
  fixUserAgent GIT_USER_AGENT (copyAllowedHeadersJoin reqHeaders ALLOWED_HEADERS)

/-! ## Record and lookup lemmas -/

theorem recordGet_recordSet_self (r : List (String × String)) (k v : String) :
    recordGet (recordSet r k v) k = some v := by
  induction r with
  | nil => simp [recordSet, recordGet, List.find?]
  | cons p rest ih =>
    by_cases h : p.1 == k
    · simp [recordSet, h, recordGet, List.find?]
    · simp only [recordSet, h]
      simp only [recordGet, List.find?, h] at ih ⊢
      simpa [h] using ih

theorem recordGet_recordSet_ne (r : List (String × String)) (k k' v : String)
    (h : k' ≠ k) : recordGet (recordSet r k' v) k = recordGet r k := by
  induction r with
  | nil =>
    have hb : (k' == k) = false := beq_eq_false_iff_ne.mpr h
    simp [recordSet, recordGet, List.find?, hb]
  | cons p rest ih =>
    by_cases hp : p.1 == k'
    · have hpk : (p.1 == k) = false := by
        simp only [beq_iff_eq] at hp ⊢
        simp [hp, h]
      simp [recordSet, hp, recordGet, List.find?, hpk, beq_iff_eq, h,
        Ne.symm h]
    · by_cases hpk : p.1 == k
      · simp [recordSet, hp, recordGet, List.find?, hpk]
      · simp only [recordSet, hp]
        simp only [recordGet, List.find?, hpk] at ih ⊢
        simpa [hpk] using ih

theorem hGet_Authorization_eq (r : List (String × String)) :
    hGet r "Authorization" = hGet r "authorization" := by
  simp only [hGet,
    show strToLower "Authorization" = "authorization" from by decide,
    show strToLower "authorization" = "authorization" from by decide]

theorem addAuthHeader_eq (reqHeaders acc : List (String × String)) :
    addAuthHeader reqHeaders acc =
      match authVal reqHeaders with
      | some v => recordSet acc "Authorization" v
      | none => acc := by
  simp only [addAuthHeader, authVal, gvAt, hGet_Authorization_eq]
  cases h : hGet reqHeaders "authorization" with
  | none => simp [h]
  | some v =>
    by_cases hv : v == ""
    · simp [h, hv, Option.getD, beq_iff_eq.mp hv]
    · simp [h, Option.getD, hv]

theorem recordGet_fixUserAgent (ua : String) (acc : List (String × String))
    (k : String) (hk : k ≠ "user-agent") :
    recordGet (fixUserAgent ua acc) k = recordGet acc k := by
  unfold fixUserAgent
  cases h : recordGet acc "user-agent" with
  | none => simp [recordGet_recordSet_ne _ _ _ _ (Ne.symm hk)]
  | some v =>
    by_cases hv : strStartsWith v "git/"
    · simp [hv]
    · simp [hv, recordGet_recordSet_ne _ _ _ _ (Ne.symm hk)]

theorem recordGet_fixUserAgent_ua (ua : String) (acc : List (String × String)) :
    recordGet (fixUserAgent ua acc) "user-agent" =
      some
        (match recordGet acc "user-agent" with
          | some v => if strStartsWith v "git/" then v else ua
          | none => ua) := by
  unfold fixUserAgent
  cases h : recordGet acc "user-agent" with
  | none => simp [recordGet_recordSet_self]
  | some v =>
    by_cases hv : strStartsWith v "git/"
    · simp [hv, h]
    · simp [hv, recordGet_recordSet_self]

/-- **C4** — any request carrying a (nonempty) `authorization` header, looked
up case-insensitively, reaches the upstream header set verbatim under the
re-copied key `Authorization`, for an arbitrary allow-list and user-agent
constant: the guarantee is independent of the allow-list filtering step. -/
theorem c4_authorization_forwarded (allowed : List String) (ua : String)
    (reqHeaders : List (String × String)) (v : String)
    (hv : hGet reqHeaders "authorization" = some v) (hne : v ≠ "") :
    recordGet (prepareProxyHeadersWith allowed ua reqHeaders) "Authorization" = some v := by
  unfold prepareProxyHeadersWith
  rw [recordGet_fixUserAgent _ _ _ (by decide), addAuthHeader_eq]
  have hav : authVal reqHeaders = some v := by
    simp [authVal, gvAt, hv, hne]
  rw [hav]
  exact recordGet_recordSet_self _ _ _

/-- **C4 witness**: a concrete request carrying `Authorization: token abc123`
(capitalized spelling) is forwarded verbatim by the Hono engine's
`prepareProxyHeaders`. -/
theorem c4_authorization_forwarded_witness :
    recordGet
      (prepareProxyHeadersWith ALLOWED_PROXY_HEADERS DEFAULT_GIT_USER_AGENT
        [("Authorization", "token abc123"), ("Accept", "*/*")])
      "Authorization" = some "token abc123" :=
  c4_authorization_forwarded ALLOWED_PROXY_HEADERS DEFAULT_GIT_USER_AGENT
    [("Authorization", "token abc123"), ("Accept", "*/*")] "token abc123"
    (by decide) (by decide)

/-! ## C2 — origin validator -/

/-- **C2 (amended)** — for every URL parser, allow-list and loopback flag:
an absent origin is allowed; an *empty* origin is also allowed (the JavaScript
falsiness test `!origin` treats it like an absent header); a nonempty origin
that does not parse is rejected; a parsed origin with loopback hostname
(`localhost` or `127.0.0.1`) is allowed when the loopback flag is set,
regardless of port; otherwise the verdict is exact string membership of the
origin in the allow-list. -/
theorem c2_origin_validator (parseUrl : String → Option UrlParts)
    (allowed : List String) (lb : Bool) :
    isOriginAllowedWith parseUrl none allowed lb = true ∧
    isOriginAllowedWith parseUrl (some "") allowed lb = true ∧
    (∀ s, s ≠ "" → parseUrl s = none →
      isOriginAllowedWith parseUrl (some s) allowed lb = false) ∧
    (∀ s u, parseUrl s = some u → lb = true →
      (u.hostname = "localhost" ∨ u.hostname = "127.0.0.1") →
      isOriginAllowedWith parseUrl (some s) allowed lb = true) ∧
    (∀ s u, s ≠ "" → parseUrl s = some u →
      (lb = false ∨ (u.hostname ≠ "localhost" ∧ u.hostname ≠ "127.0.0.1")) →
      isOriginAllowedWith parseUrl (some s) allowed lb = allowed.contains s) := by
  refine ⟨rfl, rfl, ?_, ?_, ?_⟩
  · intro s hs hp
    simp [isOriginAllowedWith, hs, hp]
  · intro s u hp hlb hhost
    by_cases hs : s = ""
    · simp [isOriginAllowedWith, hs]
    · rcases hhost with h | h <;>
        simp [isOriginAllowedWith, hs, hp, hlb, h]
  · intro s u hs hp hcase
    rcases hcase with h | ⟨h1, h2⟩
    · simp [isOriginAllowedWith, hs, hp, h]
    · simp [isOriginAllowedWith, hs, hp, h1, h2]

/-- **C2 counterexample** — the claim asserts that every origin value that does
not parse as a URL is rejected; but the empty string (a present-but-empty
`Origin` header, which the WHATWG parser rejects, as the concrete stand-in
parser does) is *allowed*, because the falsiness test `!origin` fires before
parsing. -/
theorem c2_counterexample :
    parseOriginUrl "" = none ∧
    isOriginAllowedWith parseOriginUrl (some "") ["https://fluxly.app"] false = true := by
  exact ⟨by decide, by decide⟩

/-- **C2 witness** — the amended characterization applied at concrete inputs:
an unparseable origin is rejected; a loopback origin with an unlisted port is
allowed when the flag is set; an origin absent from the allow-list is rejected
and a listed one allowed (exact membership). -/
theorem c2_origin_validator_witness :
    isOriginAllowedWith parseOriginUrl (some "not a url") ["https://fluxly.app"] true = false ∧
    isOriginAllowedWith parseOriginUrl (some "http://localhost:5173") ["https://fluxly.app"] true = true ∧
    isOriginAllowedWith parseOriginUrl (some "https://evil.example") ["https://fluxly.app"] true = false ∧
    isOriginAllowedWith parseOriginUrl (some "https://fluxly.app") ["https://fluxly.app"] true = true := by
  refine ⟨?_, ?_, ?_, ?_⟩
  · exact (c2_origin_validator parseOriginUrl ["https://fluxly.app"] true).2.2.1
      "not a url" (by decide) (by decide)
  · exact (c2_origin_validator parseOriginUrl ["https://fluxly.app"] true).2.2.2.1
      "http://localhost:5173" ⟨"localhost", some "5173"⟩ (by decide) rfl (Or.inl rfl)
  · exact Eq.trans
      ((c2_origin_validator parseOriginUrl ["https://fluxly.app"] true).2.2.2.2
        "https://evil.example" ⟨"evil.example", none⟩ (by decide) (by decide)
        (Or.inr (by decide)))
      (by decide)
  · exact Eq.trans
      ((c2_origin_validator parseOriginUrl ["https://fluxly.app"] true).2.2.2.2
        "https://fluxly.app" ⟨"fluxly.app", none⟩ (by decide) (by decide)
        (Or.inr (by decide)))
      (by decide)

/-! ## C3 — proxy URL resolver -/

theorem takeWhile_prefix_block (p : Char → Bool) (l1 : List Char) (a : Char)
    (l2 : List Char) (h1 : ∀ c ∈ l1, p c = true) (h2 : p a = false) :
    (l1 ++ a :: l2).takeWhile p = l1 := by
  induction l1 with
  | nil => simp [List.takeWhile, h2]
  | cons c t ih =>
    have hc := h1 c (by simp)
    simp only [List.cons_append, List.takeWhile, hc]
    exact congrArg (fun l => c :: l) (ih (fun d hd => h1 d (by simp [hd])))

theorem dropWhile_prefix_block (p : Char → Bool) (l1 : List Char) (a : Char)
    (l2 : List Char) (h1 : ∀ c ∈ l1, p c = true) (h2 : p a = false) :
    (l1 ++ a :: l2).dropWhile p = a :: l2 := by
  induction l1 with
  | nil => simp [List.dropWhile, h2]
  | cons c t ih =>
    have hc := h1 c (by simp)
    simp only [List.cons_append, List.dropWhile, hc]
    exact ih (fun d hd => h1 d (by simp [hd]))

theorem takeWhile_all_true (p : Char → Bool) (l : List Char)
    (h : ∀ c ∈ l, p c = true) : l.takeWhile p = l := by
  induction l with
  | nil => rfl
  | cons c t ih =>
    simp only [List.takeWhile, h c (by simp)]
    rw [ih (fun d hd => h d (by simp [hd]))]

theorem dropWhile_all_true (p : Char → Bool) (l : List Char)
    (h : ∀ c ∈ l, p c = true) : l.dropWhile p = [] := by
  induction l with
  | nil => rfl
  | cons c t ih =>
    simp only [List.dropWhile, h c (by simp)]
    exact ih (fun d hd => h d (by simp [hd]))

theorem scanProxyMatch_no_slash (l : List Char) (h : ∀ c ∈ l, c ≠ '/') :
    scanProxyMatch l = none := by
  induction l with
  | nil => rfl
  | cons c t ih =>
    have hc : (c == '/') = false := beq_eq_false_iff_ne.mpr (h c (by simp))
    simp only [scanProxyMatch, hc, Bool.false_eq_true, if_false]
    exact ih (fun d hd => h d (by simp [hd]))

theorem scanProxyMatch_found (seg rest : List Char) (hne : seg ≠ [])
    (hns : ∀ c ∈ seg, c ≠ '/') :
    scanProxyMatch ('/' :: (seg ++ '/' :: rest)) = some (seg, rest) := by
  have htake : (seg ++ '/' :: rest).takeWhile (fun d => d != '/') = seg :=
    takeWhile_prefix_block _ _ _ _ (fun c hc => bne_iff_ne.mpr (hns c hc)) (by decide)
  have hdrop : (seg ++ '/' :: rest).dropWhile (fun d => d != '/') = '/' :: rest :=
    dropWhile_prefix_block _ _ _ _ (fun c hc => bne_iff_ne.mpr (hns c hc)) (by decide)
  cases seg with
  | nil => exact absurd rfl hne
  | cons s ss =>
    simp only [scanProxyMatch, beq_self_eq_true, if_true, htake, hdrop]

theorem scanProxyMatch_single_segment (seg : List Char)
    (hns : ∀ c ∈ seg, c ≠ '/') : scanProxyMatch ('/' :: seg) = none := by
  have htake : seg.takeWhile (fun d => d != '/') = seg :=
    takeWhile_all_true _ _ (fun c hc => bne_iff_ne.mpr (hns c hc))
  have hdrop : seg.dropWhile (fun d => d != '/') = [] :=
    dropWhile_all_true _ _ (fun c hc => bne_iff_ne.mpr (hns c hc))
  cases seg with
  | nil => rfl
  | cons s ss =>
    simp only [scanProxyMatch, beq_self_eq_true, if_true, htake, hdrop]
    exact scanProxyMatch_no_slash _ hns

theorem toList_slash_append (seg rest : String) :
    ("/" ++ seg ++ "/" ++ rest).toList = '/' :: (seg.toList ++ '/' :: rest.toList) := by
  show ("/" ++ seg ++ "/" ++ rest).data = '/' :: (seg.data ++ '/' :: rest.data)
  simp [String.data_append, List.append_assoc]

theorem toList_slash_single (seg : String) :
    ("/" ++ seg).toList = '/' :: seg.toList := by
  show ("/" ++ seg).data = '/' :: seg.data
  simp [String.data_append]

/-- **C3** — the proxy URL resolver.  First conjunct: every inbound path of the
form `/{segment}/{rest}` (nonempty first segment without `/`, then a slash)
resolves to domain = the first segment and
`targetUrl = protocol ++ "://" ++ domain ++ "/" ++ rest ++ search`, with the
raw query string appended verbatim and protocol `http` exactly when the domain
is in the insecure-origins list (`https` otherwise).  Second conjunct: a path
with no slash after the first segment fails to parse.  Third conjunct: the
engine surfaces that failure as HTTP 400 with the invalid-format text body. -/
theorem c3_proxy_url_resolver :
    (∀ (seg rest search : String) (insec : List String),
        seg ≠ "" → (∀ c ∈ seg.toList, c ≠ '/') →
        parseProxyUrl ("/" ++ seg ++ "/" ++ rest) search insec =
          some
            { domain := seg, remainingPath := rest,
              targetUrl :=
                (if insec.contains seg then "http" else "https") ++ "://" ++ seg ++
                  "/" ++ rest ++ search }) ∧
    (∀ (seg search : String) (insec : List String),
        (∀ c ∈ seg.toList, c ≠ '/') →
        parseProxyUrl ("/" ++ seg) search insec = none) ∧
    (∀ (parseUrl : String → Option UrlParts) (cfg : Config) (r : Req),
        isOriginAllowedWith parseUrl (originOf r) cfg.allowedOrigins
          cfg.allowLocalhost = true →
        broadIsGitRequest r = true →
        parseProxyUrl r.pathname r.search cfg.insecureOrigins = none →
        universalHandler parseUrl cfg r =
          Outcome.reject 400 (pluginCorsHeaderList (originOf r))
            (RespBody.text "Invalid proxy URL format. Use /domain.com/path/to/repo")) := by
  refine ⟨?_, ?_, ?_⟩
  · intro seg rest search insec hne hns
    have hlist : seg.toList ≠ [] := by
      intro h
      apply hne
      cases seg with
      | mk l => cases h; rfl
    unfold parseProxyUrl
    rw [toList_slash_append, scanProxyMatch_found _ _ hlist hns]
    rfl
  · intro seg search insec hns
    unfold parseProxyUrl
    rw [toList_slash_single, scanProxyMatch_single_segment _ hns]
  · intro parseUrl cfg r hAllow hGit hParse
    simp [universalHandler, hAllow, hGit, hParse]

/-- **C3 witness** — the resolver at the spec's concrete inputs: the canonical
GitHub ref-discovery path resolves over `https`, the same path with
`github.com` configured insecure resolves over `http`, and a single-segment
path fails to parse. -/
theorem c3_proxy_url_resolver_witness :
    parseProxyUrl ("/" ++ "github.com" ++ "/" ++ "user/repo.git/info/refs")
        "?service=git-upload-pack" [] =
      some
        { domain := "github.com", remainingPath := "user/repo.git/info/refs",
          targetUrl := "https://github.com/user/repo.git/info/refs?service=git-upload-pack" } ∧
    parseProxyUrl ("/" ++ "github.com" ++ "/" ++ "user/repo.git/info/refs")
        "?service=git-upload-pack" ["github.com"] =
      some
        { domain := "github.com", remainingPath := "user/repo.git/info/refs",
          targetUrl := "http://github.com/user/repo.git/info/refs?service=git-upload-pack" } ∧
    parseProxyUrl ("/" ++ "onlyonesegment") "" [] = none := by
  refine ⟨?_, ?_, ?_⟩
  · exact Eq.trans
      (c3_proxy_url_resolver.1 "github.com" "user/repo.git/info/refs"
        "?service=git-upload-pack" [] (by decide) (by decide))
      (by decide)
  · exact Eq.trans
      (c3_proxy_url_resolver.1 "github.com" "user/repo.git/info/refs"
        "?service=git-upload-pack" ["github.com"] (by decide) (by decide))
      (by decide)
  · exact c3_proxy_url_resolver.2.1 "onlyonesegment" "" [] (by decide)

/-! ## C5 — redirect location rewriting -/

theorem isPrefixOf_append_left (p a m : List Char)
    (h : p.isPrefixOf a = true) : p.isPrefixOf (a ++ m) = true := by
  induction p generalizing a with
  | nil => cases a ++ m <;> rfl
  | cons c t ih =>
    cases a with
    | nil => simp [List.isPrefixOf] at h
    | cons d as =>
      simp only [List.isPrefixOf, Bool.and_eq_true] at h
      simp only [List.cons_append, List.isPrefixOf, Bool.and_eq_true]
      exact ⟨h.1, ih as h.2⟩

theorem toList_append (a b : String) : (a ++ b).toList = a.toList ++ b.toList := by
  show (a ++ b).data = a.data ++ b.data
  simp [String.data_append]

theorem strStartsWith_append_left (p a s : String)
    (h : p.toList.isPrefixOf a.toList = true) : strStartsWith (a ++ s) p = true := by
  unfold strStartsWith
  rw [toList_append]
  exact isPrefixOf_append_left _ _ _ h

theorem http_toList_append (s : String) :
    ("http://" ++ s).toList = 'h' :: 't' :: 't' :: 'p' :: ':' :: '/' :: '/' :: s.toList := by
  rw [toList_append,
    show "http://".toList = ['h', 't', 't', 'p', ':', '/', '/'] from by decide]
  simp

theorem not_https_prefix_of_http (s : String) :
    strStartsWith ("http://" ++ s) "https://" = false := by
  show List.isPrefixOf "https://".toList ("http://" ++ s).toList = false
  rw [http_toList_append,
    show "https://".toList = ['h', 't', 't', 'p', 's', ':', '/', '/'] from by decide]
  simp [List.isPrefixOf]

theorem not_https_slash_prefix_of_http (s : String) :
    strStartsWith ("http://" ++ s) "https:/" = false := by
  show List.isPrefixOf "https:/".toList ("http://" ++ s).toList = false
  rw [http_toList_append,
    show "https:/".toList = ['h', 't', 't', 'p', 's', ':', '/'] from by decide]
  simp [List.isPrefixOf]

theorem strDrop_append_of_length (a s : String) (n : Nat)
    (h : a.toList.length = n) : strDrop (a ++ s) n = s := by
  unfold strDrop
  rw [toList_append, ← h, List.drop_left]
  rfl

/-- **C5 (amended)** — the upstream `location` rewrite replaces a leading
`https://` or `http://` with a single `/`, so `https://github.com/x/y/` becomes
the root-relative `/github.com/x/y/` (the upstream host is preserved as the
first path *segment*, behind a leading slash, not as the leading component);
values without such a prefix pass through unchanged; `handleRedirectResponse`
stores exactly the rewritten value in the outgoing `location` header and does
nothing when the upstream response has no `location`; and the single-file Hono
port's rewrite (`^https?:\/` stripped to the empty string) produces the same
root-relative value on scheme-prefixed locations. -/
theorem c5_location_rewrite :
    (∀ s : String, rewriteLocation ("https://" ++ s) = "/" ++ s) ∧
    (∀ s : String, rewriteLocation ("http://" ++ s) = "/" ++ s) ∧
    (∀ s : String, strStartsWith s "https://" = false →
      strStartsWith s "http://" = false → rewriteLocation s = s) ∧
    (∀ (upstreamHeaders respHeaders : List (String × String)) (loc : String),
      hGet upstreamHeaders "location" = some loc →
      recordGet (handleRedirectResponse upstreamHeaders respHeaders) "location" =
        some (rewriteLocation loc)) ∧
    (∀ upstreamHeaders respHeaders : List (String × String),
      hGet upstreamHeaders "location" = none →
      handleRedirectResponse upstreamHeaders respHeaders = respHeaders) ∧
    (∀ s : String, rewriteLocationHono ("https://" ++ s) = "/" ++ s ∧
      rewriteLocationHono ("http://" ++ s) = "/" ++ s) := by
  refine ⟨?_, ?_, ?_, ?_, ?_, ?_⟩
  · intro s
    unfold rewriteLocation
    rw [strStartsWith_append_left _ _ _ (by decide),
      strDrop_append_of_length _ _ _ (by decide)]
    simp
  · intro s
    unfold rewriteLocation
    rw [not_https_prefix_of_http]
    simp only [Bool.false_eq_true, if_false]
    rw [strStartsWith_append_left _ _ _ (by decide)]
    simp only [if_true]
    rw [strDrop_append_of_length _ _ _ (by decide)]
  · intro s h1 h2
    simp [rewriteLocation, h1, h2]
  · intro up resp loc h
    unfold handleRedirectResponse
    rw [h]
    exact recordGet_recordSet_self _ _ _
  · intro up resp h
    unfold handleRedirectResponse
    rw [h]
  · intro s
    constructor
    · unfold rewriteLocationHono
      rw [strStartsWith_append_left _ _ _ (by decide)]
      simp only [if_true]
      show String.mk (("https://" ++ s).toList.drop 7) = "/" ++ s
      rw [toList_append,
        show "https://".toList = ['h', 't', 't', 'p', 's', ':', '/', '/'] from by decide]
      show String.mk ('/' :: s.toList) = "/" ++ s
      rfl
    · unfold rewriteLocationHono
      rw [not_https_slash_prefix_of_http]
      simp only [Bool.false_eq_true, if_false]
      rw [strStartsWith_append_left _ _ _ (by decide)]
      simp only [if_true]
      show String.mk (("http://" ++ s).toList.drop 6) = "/" ++ s
      rw [http_toList_append]
      show String.mk ('/' :: s.toList) = "/" ++ s
      rfl

/-- **C5 counterexample** — the claim asserts that the scheme *and* the `://`
separator are stripped so the host is the leading component
(`location: github.com/x/y/`); the code instead replaces the prefix with `/`,
producing `/github.com/x/y/`. -/
theorem c5_counterexample :
    rewriteLocation "https://github.com/x/y/" = "/github.com/x/y/" ∧
    rewriteLocation "https://github.com/x/y/" ≠ "github.com/x/y/" := by
  exact ⟨by decide, by decide⟩

/-- **C5 witness** — the amended rewrite applied at the spec's Scenario E
location, a bare `http` location, and an already-relative location. -/
theorem c5_location_rewrite_witness :
    rewriteLocation ("https://" ++ "github.com/x/y/") = "/" ++ "github.com/x/y/" ∧
    rewriteLocation ("http://" ++ "github.com/x/y/") = "/" ++ "github.com/x/y/" ∧
    rewriteLocation "/already/relative" = "/already/relative" ∧
    recordGet
        (handleRedirectResponse [("Location", "https://github.com/x/y/")] [])
        "location" = some (rewriteLocation "https://github.com/x/y/") := by
  refine ⟨c5_location_rewrite.1 "github.com/x/y/",
    c5_location_rewrite.2.1 "github.com/x/y/",
    c5_location_rewrite.2.2.1 "/already/relative" (by decide) (by decide),
    c5_location_rewrite.2.2.2.1 [("Location", "https://github.com/x/y/")] []
      "https://github.com/x/y/" (by decide)⟩

/-! ## C6 — request body attachment -/

theorem strict_git_method (r : Req) (h : isGitRequest r = true) :
    r.method = "OPTIONS" ∨ r.method = "GET" ∨ r.method = "POST" := by
  simp only [isGitRequest, isPreflightInfoRefs, isInfoRefs, isPreflightPull,
    isPull, isPreflightPush, isPush, Bool.or_eq_true, Bool.and_eq_true,
    beq_iff_eq] at h
  rcases h with ((((h | h) | h) | h) | h) | h <;>
    first
      | exact Or.inl h.1.1
      | exact Or.inr (Or.inl h.1.1)
      | exact Or.inr (Or.inr h.1.1)

/-- **C6 (amended)** — the Hono engine's `makeProxyRequest` attaches the
incoming body only for POST, PUT, and PATCH requests (never for GET or HEAD);
in the Elysia strict engine, every forwarded Git request is GET or POST and
the upstream call carries a body exactly when the method is POST (never for
GET or HEAD). -/
theorem c6_body_attachment :
    (∀ (r : Req) (bodyUsed : Bool), makeProxyRequestBody r bodyUsed ≠ none →
      r.method = "POST" ∨ r.method = "PUT" ∨ r.method = "PATCH") ∧
    (∀ (r : Req) (bodyUsed : Bool), (r.method = "GET" ∨ r.method = "HEAD") →
      makeProxyRequestBody r bodyUsed = none) ∧
    (∀ (insec : List String) (r : Req) (hs : List (String × String))
        (call : ProxyCall),
      gitCorsProxyHandler insec r = Outcome.forward hs call →
      (call.body ≠ none → r.method = "POST") ∧
      ((r.method = "GET" ∨ r.method = "HEAD") → call.body = none)) := by
  refine ⟨?_, ?_, ?_⟩
  · intro r bu h
    by_cases hc : (r.method == "POST" || r.method == "PUT" || r.method == "PATCH") = true
    · simpa [Bool.or_eq_true, beq_iff_eq, or_assoc] using hc
    · exact absurd (by simp [makeProxyRequestBody, hc]) h
  · intro r bu h
    rcases h with h | h <;> simp [makeProxyRequestBody, h]
  · intro insec r hs call h
    by_cases hgit : isGitRequest r = true
    · by_cases hopt : (r.method == "OPTIONS") = true
      · simp [gitCorsProxyHandler, hgit, hopt] at h
      · cases hp : parseProxyUrl r.pathname r.search insec with
        | none => simp [gitCorsProxyHandler, hgit, hopt, hp] at h
        | some parts =>
          simp only [gitCorsProxyHandler, hgit, Bool.not_true,
            Bool.false_eq_true, if_false, hopt, hp] at h
          rw [Outcome.forward.injEq] at h
          obtain ⟨hhs, hcall⟩ := h
          have hmethod := strict_git_method r hgit
          have hnopt : r.method ≠ "OPTIONS" := by
            intro hm
            exact absurd (by simp [hm]) hopt
          subst hcall
          constructor
          · intro hb
            rcases hmethod with hm | hm | hm
            · exact absurd hm hnopt
            · simp [hm] at hb
            · exact hm
          · intro hm
            rcases hm with hm | hm <;> simp [hm]
    · simp [gitCorsProxyHandler, hgit] at h

/-- **C6 counterexample** — a PUT request that the broad detector classifies as
Git (and which the universal handler therefore forwards to `makeProxyRequest`)
gets its body attached, contradicting “only for POST requests”. -/
theorem c6_counterexample :
    broadIsGitRequest
        { method := "PUT", pathname := "/github.com/x/y.git/info/refs",
          search := "", searchParams := [], headers := [], url := "",
          body := some "payload" } = true ∧
    makeProxyRequestBody
        { method := "PUT", pathname := "/github.com/x/y.git/info/refs",
          search := "", searchParams := [], headers := [], url := "",
          body := some "payload" } false = some "payload" ∧
    ("PUT" : String) ≠ "POST" := by
  exact ⟨by decide, by decide, by decide⟩

/-- **C6 witness** — at a concrete GET ref-discovery request (which carries a
stray body), `makeProxyRequest` attaches no body, and the Elysia strict engine
forwards the request with no body attached. -/
theorem c6_body_attachment_witness :
    makeProxyRequestBody
        { method := "GET", pathname := "/github.com/x/y.git/info/refs",
          search := "?service=git-upload-pack",
          searchParams := [("service", "git-upload-pack")],
          headers := [("user-agent", "git/2.39.0")], url := "",
          body := some "stray" } false = none ∧
    gitCorsProxyHandler []
        { method := "GET", pathname := "/github.com/x/y.git/info/refs",
          search := "?service=git-upload-pack",
          searchParams := [("service", "git-upload-pack")],
          headers := [("user-agent", "git/2.39.0")], url := "",
          body := some "stray" } =
      Outcome.forward []
        { method := "GET",
          targetUrl := "https://github.com/x/y.git/info/refs?service=git-upload-pack",
          headers := [("user-agent", "git/2.39.0")], body := none } ∧
    ProxyCall.body
        { method := "GET",
          targetUrl := "https://github.com/x/y.git/info/refs?service=git-upload-pack",
          headers := [("user-agent", "git/2.39.0")], body := none } = none := by
  refine ⟨?_, by decide, ?_⟩
  · exact c6_body_attachment.2.1
      { method := "GET", pathname := "/github.com/x/y.git/info/refs",
        search := "?service=git-upload-pack",
        searchParams := [("service", "git-upload-pack")],
        headers := [("user-agent", "git/2.39.0")], url := "",
        body := some "stray" } false (Or.inl rfl)
  · exact (c6_body_attachment.2.2 []
      { method := "GET", pathname := "/github.com/x/y.git/info/refs",
        search := "?service=git-upload-pack",
        searchParams := [("service", "git-upload-pack")],
        headers := [("user-agent", "git/2.39.0")], url := "",
        body := some "stray" } []
      { method := "GET",
        targetUrl := "https://github.com/x/y.git/info/refs?service=git-upload-pack",
        headers := [("user-agent", "git/2.39.0")], body := none }
      (by decide)).2 (Or.inl rfl)

/-! ## C7 — non-Git request handling -/

/-- **C7** — in the Elysia modular engine's universal handler, a request with
an allowed origin that the (broad) classifier deems non-Git gets: for POST, a
403 with the plain-text body `Forbidden - Not a Git request`; for GET and
every other non-OPTIONS method (OPTIONS requests are routed to the dedicated
preflight handler instead), a 200 informational JSON body whose `isGit` field
is `false`. -/
theorem c7_non_git_responses (parseUrl : String → Option UrlParts)
    (cfg : Config) (r : Req)
    (hAllow : isOriginAllowedWith parseUrl (originOf r) cfg.allowedOrigins
      cfg.allowLocalhost = true)
    (hNonGit : broadIsGitRequest r = false) :
    (r.method = "POST" →
      universalHandler parseUrl cfg r =
        Outcome.reject 403 (pluginCorsHeaderList (originOf r))
          (RespBody.text "Forbidden - Not a Git request")) ∧
    (r.method ≠ "POST" → r.method ≠ "OPTIONS" →
      universalHandler parseUrl cfg r =
        Outcome.reject 200 (pluginCorsHeaderList (originOf r))
          (RespBody.json
            { message := "Not a Git request", url := r.url, method := r.method,
              isGit := false, architecture := "modular-plugins" })) := by
  constructor
  · intro hm
    simp [universalHandler, hAllow, hNonGit, hm]
  · intro hm _
    have hmb : (r.method == "POST") = false := beq_eq_false_iff_ne.mpr hm
    simp [universalHandler, hAllow, hNonGit, hmb]

/-- **C7 witness** — concrete non-Git requests without an origin header
(allowed): a POST gets the 403 text, a GET gets the 200 informational JSON
with `isGit := false`. -/
theorem c7_non_git_responses_witness :
    universalHandler parseOriginUrl
        { allowedOrigins := ["https://fluxly.app"], allowLocalhost := true,
          insecureOrigins := [] }
        { method := "POST", pathname := "/api/status", search := "",
          searchParams := [], headers := [], url := "https://proxy.example/api/status",
          body := none } =
      Outcome.reject 403 (pluginCorsHeaderList none)
        (RespBody.text "Forbidden - Not a Git request") ∧
    universalHandler parseOriginUrl
        { allowedOrigins := ["https://fluxly.app"], allowLocalhost := true,
          insecureOrigins := [] }
        { method := "GET", pathname := "/api/status", search := "",
          searchParams := [], headers := [], url := "https://proxy.example/api/status",
          body := none } =
      Outcome.reject 200 (pluginCorsHeaderList none)
        (RespBody.json
          { message := "Not a Git request", url := "https://proxy.example/api/status",
            method := "GET", isGit := false, architecture := "modular-plugins" }) := by
  constructor
  · exact (c7_non_git_responses parseOriginUrl
      { allowedOrigins := ["https://fluxly.app"], allowLocalhost := true,
        insecureOrigins := [] }
      { method := "POST", pathname := "/api/status", search := "",
        searchParams := [], headers := [], url := "https://proxy.example/api/status",
        body := none } (by decide) (by decide)).1 rfl
  · exact (c7_non_git_responses parseOriginUrl
      { allowedOrigins := ["https://fluxly.app"], allowLocalhost := true,
        insecureOrigins := [] }
      { method := "GET", pathname := "/api/status", search := "",
        searchParams := [], headers := [], url := "https://proxy.example/api/status",
        body := none } (by decide) (by decide)).2 (by decide) (by decide)

/-! ## C8 — preflight rejection of disallowed origins -/

theorem originOf_ne_empty (r : Req) (s : String) (h : originOf r = some s) :
    s ≠ "" := by
  unfold originOf at h
  cases hg : hGet r.headers "origin" with
  | none => rw [hg] at h; exact absurd h (by simp)
  | some v =>
    rw [hg] at h
    have h' : (if v == "" then none else some v) = some s := h
    by_cases hv : (v == "") = true
    · rw [if_pos hv] at h'
      exact absurd h' (by simp)
    · rw [if_neg hv] at h'
      cases h'
      exact fun he => hv (by simp [he])

/-- **C8** — an OPTIONS request whose origin header is present, parseable, has
a non-loopback hostname, and is not in the allow-list is answered by the
Elysia modular engine's preflight handler with status 403, an empty body, and
*no* response headers — in particular no `access-control-allow-origin`
header. -/
theorem c8_preflight_rejection (parseUrl : String → Option UrlParts)
    (cfg : Config) (r : Req) (s : String) (u : UrlParts)
    (hOrigin : originOf r = some s)
    (hParse : parseUrl s = some u)
    (hHost1 : u.hostname ≠ "localhost") (hHost2 : u.hostname ≠ "127.0.0.1")
    (hMem : cfg.allowedOrigins.contains s = false) :
    optionsHandler parseUrl cfg r = (403, [], "") ∧
    hGet (optionsHandler parseUrl cfg r).2.1 "access-control-allow-origin" = none := by
  have hs : s ≠ "" := originOf_ne_empty r s hOrigin
  have hmem : s ∉ cfg.allowedOrigins := by simpa using hMem
  have hAllowed : isOriginAllowedWith parseUrl (originOf r) cfg.allowedOrigins
      cfg.allowLocalhost = false := by
    rw [hOrigin]
    simp [isOriginAllowedWith, hs, hParse, hHost1, hHost2, hmem]
  have hmain : optionsHandler parseUrl cfg r = (403, [], "") := by
    simp [optionsHandler, hAllowed]
  exact ⟨hmain, by rw [hmain]; rfl⟩

/-- **C8 witness** — a concrete OPTIONS preflight from `https://evil.example`
against an allow-list containing only `https://fluxly.app` gets a 403 with no
headers at all. -/
theorem c8_preflight_rejection_witness :
    optionsHandler parseOriginUrl
        { allowedOrigins := ["https://fluxly.app"], allowLocalhost := true,
          insecureOrigins := [] }
        { method := "OPTIONS", pathname := "/github.com/x/y.git/info/refs",
          search := "?service=git-upload-pack",
          searchParams := [("service", "git-upload-pack")],
          headers := [("origin", "https://evil.example")], url := "",
          body := none } = (403, [], "") := by
  exact (c8_preflight_rejection parseOriginUrl
    { allowedOrigins := ["https://fluxly.app"], allowLocalhost := true,
      insecureOrigins := [] }
    { method := "OPTIONS", pathname := "/github.com/x/y.git/info/refs",
      search := "?service=git-upload-pack",
      searchParams := [("service", "git-upload-pack")],
      headers := [("origin", "https://evil.example")], url := "",
      body := none } "https://evil.example" ⟨"evil.example", none⟩
    (by decide) (by decide) (by decide) (by decide) (by decide)).1

/-! ## C10 — broad detector is method-blind; forwarding keeps the method -/

/-- **C10 (amended)** — the broad heuristic detector never inspects the HTTP
method: its verdict is invariant under changing the method, and any request
whose path contains `/info/refs` or `.git/`, whose user-agent starts with
`git/`, or whose `service` query parameter is `git-upload-pack` or
`git-receive-pack` is classified as Git for *every* method.  The universal
handler then forwards such a request with its original method to the upstream
host *provided its path parses as `/{domain}/{rest}`*; when the path does not
parse (e.g. `/` with a `git/` user-agent) it responds 400 instead of
forwarding. -/
theorem c10_broad_detector_method_blind :
    (∀ (r : Req) (m₁ m₂ : String),
      broadIsGitRequest { r with method := m₁ } =
        broadIsGitRequest { r with method := m₂ }) ∧
    (∀ r : Req,
      (strIncludes r.pathname "/info/refs" = true ∨
        strIncludes r.pathname ".git/" = true ∨
        strStartsWith ((hGet r.headers "user-agent").getD "") "git/" = true ∨
        spGet r.searchParams "service" = some "git-upload-pack" ∨
        spGet r.searchParams "service" = some "git-receive-pack") →
      broadIsGitRequest r = true) ∧
    (∀ (parseUrl : String → Option UrlParts) (cfg : Config) (r : Req)
        (parts : ProxyUrlParts),
      isOriginAllowedWith parseUrl (originOf r) cfg.allowedOrigins
        cfg.allowLocalhost = true →
      broadIsGitRequest r = true →
      parseProxyUrl r.pathname r.search cfg.insecureOrigins = some parts →
      universalHandler parseUrl cfg r =
        Outcome.forward (pluginCorsHeaderList (originOf r))
          { method := r.method, targetUrl := parts.targetUrl,
            headers := elysiaPrepareProxyHeaders r.headers, body := r.body }) := by
  refine ⟨?_, ?_, ?_⟩
  · intro r m₁ m₂
    rfl
  · intro r h
    rcases h with h | h | h | h | h
    · simp [broadIsGitRequest, hasGitPath, GIT_PATHS, h]
    · simp [broadIsGitRequest, hasGitPath, GIT_PATHS, h]
    · simp [broadIsGitRequest, hasGitUserAgent, GIT_USER_AGENTS, h]
    · simp [broadIsGitRequest, hasGitServiceParameter, h, GIT_SERVICES]
    · simp [broadIsGitRequest, hasGitServiceParameter, h, GIT_SERVICES]
  · intro parseUrl cfg r parts hAllow hGit hParse
    simp [universalHandler, hAllow, hGit, hParse]

set_option maxRecDepth 8000 in
/-- **C10 counterexample** — a PUT to path `/` with user-agent `git/2.39.0` is
classified as Git by the broad detector, but the universal handler does *not*
forward it: the path has no `/{domain}/{rest}` shape, so it answers 400. -/
theorem c10_counterexample :
    broadIsGitRequest
        { method := "PUT", pathname := "/", search := "", searchParams := [],
          headers := [("user-agent", "git/2.39.0")], url := "", body := none } = true ∧
    universalHandler parseOriginUrl
        { allowedOrigins := [], allowLocalhost := true, insecureOrigins := [] }
        { method := "PUT", pathname := "/", search := "", searchParams := [],
          headers := [("user-agent", "git/2.39.0")], url := "", body := none } =
      Outcome.reject 400 (pluginCorsHeaderList none)
        (RespBody.text "Invalid proxy URL format. Use /domain.com/path/to/repo") := by
  exact ⟨by decide, by decide⟩

set_option maxRecDepth 8000 in
/-- **C10 witness** — a concrete PUT (a method outside GET/POST/OPTIONS) to a
`.git/` path is classified as Git and forwarded with method PUT. -/
theorem c10_broad_detector_method_blind_witness :
    broadIsGitRequest
        { method := "PUT", pathname := "/github.com/x/y.git/z", search := "",
          searchParams := [], headers := [("user-agent", "git/2.39.0")],
          url := "", body := some "data" } = true ∧
    universalHandler parseOriginUrl
        { allowedOrigins := [], allowLocalhost := true, insecureOrigins := [] }
        { method := "PUT", pathname := "/github.com/x/y.git/z", search := "",
          searchParams := [], headers := [("user-agent", "git/2.39.0")],
          url := "", body := some "data" } =
      Outcome.forward (pluginCorsHeaderList none)
        { method := "PUT", targetUrl := "https://github.com/x/y.git/z",
          headers :=
            elysiaPrepareProxyHeaders [("user-agent", "git/2.39.0")],
          body := some "data" } := by
  constructor
  · exact c10_broad_detector_method_blind.2.1
      { method := "PUT", pathname := "/github.com/x/y.git/z", search := "",
        searchParams := [], headers := [("user-agent", "git/2.39.0")],
        url := "", body := some "data" } (Or.inr (Or.inl (by decide)))
  · exact c10_broad_detector_method_blind.2.2 parseOriginUrl
      { allowedOrigins := [], allowLocalhost := true, insecureOrigins := [] }
      { method := "PUT", pathname := "/github.com/x/y.git/z", search := "",
        searchParams := [], headers := [("user-agent", "git/2.39.0")],
        url := "", body := some "data" }
      { domain := "github.com", remainingPath := "x/y.git/z",
        targetUrl := "https://github.com/x/y.git/z" }
      (by decide) (by decide) (by decide)

/-! ## C1 — strict classifier characterization -/

set_option maxHeartbeats 1000000 in
/-- **C1 (amended)** — the strict classifier returns a Git verdict exactly when
at least one of the six shapes matches (first conjunct, for every request), so
negating a single required condition of a correctly-formed shape flips the
classification to NotGit *exactly when the mutated request matches none of the
six shapes*.  The remaining conjuncts show single-condition mutations of the
canonical ref-discovery GET that do land outside all six shapes (method to
PUT, path suffix broken, service parameter broken) and are indeed NotGit.  The
unqualified mutation sentence is false: changing that request's method from
GET to OPTIONS produces the PreflightInfoRefs shape (see the
counterexample). -/
theorem c1_strict_classifier :
    (∀ r : Req,
      isGitRequest r = true ↔
        ((r.method = "OPTIONS" ∧ strEndsWith r.pathname "/info/refs" = true ∧
            (spGet r.searchParams "service" = some "git-upload-pack" ∨
              spGet r.searchParams "service" = some "git-receive-pack")) ∨
         (r.method = "GET" ∧ strEndsWith r.pathname "/info/refs" = true ∧
            (spGet r.searchParams "service" = some "git-upload-pack" ∨
              spGet r.searchParams "service" = some "git-receive-pack")) ∨
         (r.method = "OPTIONS" ∧
            strIncludes ((hGet r.headers "access-control-request-headers").getD "")
              "content-type" = true ∧
            strEndsWith r.pathname "git-upload-pack" = true) ∨
         (r.method = "POST" ∧
            hGet r.headers "content-type" =
              some "application/x-git-upload-pack-request" ∧
            strEndsWith r.pathname "git-upload-pack" = true) ∨
         (r.method = "OPTIONS" ∧
            strIncludes ((hGet r.headers "access-control-request-headers").getD "")
              "content-type" = true ∧
            strEndsWith r.pathname "git-receive-pack" = true) ∨
         (r.method = "POST" ∧
            hGet r.headers "content-type" =
              some "application/x-git-receive-pack-request" ∧
            strEndsWith r.pathname "git-receive-pack" = true))) ∧
    isGitRequest
        { method := "PUT", pathname := "/github.com/x/y.git/info/refs",
          search := "?service=git-upload-pack",
          searchParams := [("service", "git-upload-pack")], headers := [],
          url := "", body := none } = false ∧
    isGitRequest
        { method := "GET", pathname := "/github.com/x/y.git/info/reps",
          search := "?service=git-upload-pack",
          searchParams := [("service", "git-upload-pack")], headers := [],
          url := "", body := none } = false ∧
    isGitRequest
        { method := "GET", pathname := "/github.com/x/y.git/info/refs",
          search := "?service=git-fetch-pack",
          searchParams := [("service", "git-fetch-pack")], headers := [],
          url := "", body := none } = false := by
  refine ⟨?_, by decide, by decide, by decide⟩
  intro r
  simp only [isGitRequest, isPreflightInfoRefs, isInfoRefs, isPreflightPull,
    isPull, isPreflightPush, isPush, Bool.or_eq_true, Bool.and_eq_true,
    beq_iff_eq, and_assoc, or_assoc]

/-- **C1 counterexample** — the claim asserts that negating any single required
condition of a correctly-formed shape flips the strict classification to
NotGit.  Take the correctly-formed InfoRefs request (GET, `/info/refs` suffix,
`service=git-upload-pack`) and negate its method condition by using OPTIONS:
the classifier still answers Git, because the mutated request matches the
PreflightInfoRefs shape. -/
theorem c1_counterexample :
    isInfoRefs
        { method := "GET", pathname := "/github.com/x/y.git/info/refs",
          search := "?service=git-upload-pack",
          searchParams := [("service", "git-upload-pack")], headers := [],
          url := "", body := none } = true ∧
    ("OPTIONS" : String) ≠ "GET" ∧
    isGitRequest
        { method := "OPTIONS", pathname := "/github.com/x/y.git/info/refs",
          search := "?service=git-upload-pack",
          searchParams := [("service", "git-upload-pack")], headers := [],
          url := "", body := none } = true := by
  exact ⟨by decide, by decide, by decide⟩

/-- **C1 witness** — the characterization applied at a concrete
correctly-formed Pull request: the POST shape with the exact content-type
yields a Git verdict. -/
theorem c1_strict_classifier_witness :
    isGitRequest
        { method := "POST", pathname := "/github.com/x/y.git/git-upload-pack",
          search := "", searchParams := [],
          headers := [("content-type", "application/x-git-upload-pack-request")],
          url := "", body := some "0032want" } = true := by
  exact (c1_strict_classifier.1
    { method := "POST", pathname := "/github.com/x/y.git/git-upload-pack",
      search := "", searchParams := [],
      headers := [("content-type", "application/x-git-upload-pack-request")],
      url := "", body := some "0032want" }).mpr
    (Or.inr (Or.inr (Or.inr (Or.inl ⟨rfl, by decide, by decide⟩))))

/-! ## C9 — idempotence of the outbound header transformer -/

theorem recordGet_mem (r : List (String × String)) (k v : String)
    (h : recordGet r k = some v) : (k, v) ∈ r := by
  unfold recordGet at h
  cases hf : r.find? (fun p => p.1 == k) with
  | none => rw [hf] at h; cases h
  | some p =>
    rw [hf] at h
    have hp := List.find?_some hf
    have hmem : p ∈ r := List.mem_of_find?_eq_some hf
    have hv : p.2 = v := by cases h; rfl
    have hk : p.1 = k := beq_iff_eq.mp hp
    cases p
    cases hk
    cases hv
    exact hmem

theorem recordGet_eq_some_of_mem_nodup (r : List (String × String))
    (k v : String) (hnd : (r.map Prod.fst).Nodup) (hmem : (k, v) ∈ r) :
    recordGet r k = some v := by
  induction r with
  | nil => cases hmem
  | cons p rest ih =>
    rw [List.map_cons] at hnd
    have hnd' := List.nodup_cons.mp hnd
    rcases List.mem_cons.mp hmem with heq | hrest
    · cases heq
      simp [recordGet, List.find?]
    · have hk : k ∈ rest.map Prod.fst :=
        List.mem_map.mpr ⟨(k, v), hrest, rfl⟩
      have hne : (p.1 == k) = false := by
        refine beq_eq_false_iff_ne.mpr ?_
        intro he
        exact hnd'.1 (he ▸ hk)
      have := ih hnd'.2 hrest
      simp only [recordGet, List.find?, hne] at this ⊢
      exact this

theorem mem_recordSet_sub (r : List (String × String)) (k v : String)
    (p : String × String) (h : p ∈ recordSet r k v) :
    p ∈ r ∨ p = (k, v) := by
  induction r with
  | nil => simpa [recordSet] using h
  | cons q rest ih =>
    by_cases hq : q.1 == k
    · simp only [recordSet, hq, if_true] at h
      rcases List.mem_cons.mp h with he | hr
      · exact Or.inr he
      · exact Or.inl (List.mem_cons.mpr (Or.inr hr))
    · simp only [recordSet, hq, Bool.false_eq_true, if_false] at h
      rcases List.mem_cons.mp h with he | hr
      · exact Or.inl (List.mem_cons.mpr (Or.inl he))
      · rcases ih hr with hin | he
        · exact Or.inl (List.mem_cons.mpr (Or.inr hin))
        · exact Or.inr he

theorem mem_map_fst_recordSet_sub (r : List (String × String)) (k v : String)
    (x : String) (h : x ∈ (recordSet r k v).map Prod.fst) :
    x ∈ r.map Prod.fst ∨ x = k := by
  rcases List.mem_map.mp h with ⟨p, hp, hx⟩
  rcases mem_recordSet_sub r k v p hp with hin | he
  · exact Or.inl (List.mem_map.mpr ⟨p, hin, hx⟩)
  · cases he
    exact Or.inr hx.symm

theorem keysNodup_recordSet (r : List (String × String)) (k v : String)
    (hnd : (r.map Prod.fst).Nodup) :
    ((recordSet r k v).map Prod.fst).Nodup := by
  induction r with
  | nil => simp [recordSet]
  | cons q rest ih =>
    rw [List.map_cons] at hnd
    have hnd' := List.nodup_cons.mp hnd
    by_cases hq : q.1 == k
    · have hk : k = q.1 := (beq_iff_eq.mp hq).symm
      simp only [recordSet, hq, if_true, List.map_cons]
      refine List.nodup_cons.mpr ⟨?_, hnd'.2⟩
      rw [hk]
      exact hnd'.1
    · simp only [recordSet, hq, Bool.false_eq_true, if_false, List.map_cons]
      refine List.nodup_cons.mpr ⟨?_, ih hnd'.2⟩
      intro hin
      rcases mem_map_fst_recordSet_sub rest k v q.1 hin with hmem | he
      · exact hnd'.1 hmem
      · exact absurd (beq_iff_eq.mpr he) (by simpa using hq)

theorem recordGet_copyFold (g : String → Option String) :
    ∀ (names : List String) (acc : List (String × String)) (k : String),
      names.Nodup →
      recordGet
        (names.foldl
          (fun acc name =>
            match g name with
            | some v => if v == "" then acc else recordSet acc name v
            | none => acc)
          acc) k =
        (if k ∈ names then
          match truthy (g k) with
          | some v => some v
          | none => recordGet acc k
        else recordGet acc k) := by
  intro names
  induction names with
  | nil =>
    intro acc k _
    simp
  | cons n rest ih =>
    intro acc k hnd
    rw [List.nodup_cons] at hnd
    rw [List.foldl_cons, ih _ k hnd.2]
    by_cases hkr : k ∈ rest
    · have hkn : k ≠ n := fun he => hnd.1 (he ▸ hkr)
      simp only [hkr, if_true, List.mem_cons, or_true]
      cases hg : truthy (g k) with
      | some v => rfl
      | none =>
        cases hh : g n with
        | none => simp [hh]
        | some v =>
          by_cases hv : v == ""
          · simp [hh, hv]
          · simp [hh, hv, recordGet_recordSet_ne _ _ _ _ (Ne.symm hkn)]
    · by_cases hkn : k = n
      · subst hkn
        simp only [hkr, if_false, List.mem_cons, true_or, if_true]
        cases hh : g k with
        | none => simp [hh, truthy]
        | some v =>
          by_cases hv : v == ""
          · simp [hh, hv, truthy]
          · simp [hh, hv, truthy, recordGet_recordSet_self]
      · have hnot : ¬ k ∈ (n :: rest) := by
          simp [List.mem_cons, hkn, hkr]
        simp only [hkr, if_false, hnot]
        cases hh : g n with
        | none => simp [hh]
        | some v =>
          by_cases hv : v == ""
          · simp [hh, hv]
          · simp [hh, hv, recordGet_recordSet_ne _ _ _ _ (Ne.symm hkn)]

theorem mem_copyFold (g : String → Option String) :
    ∀ (names : List String) (acc : List (String × String)) (p : String × String),
      p ∈ names.foldl
          (fun acc name =>
            match g name with
            | some v => if v == "" then acc else recordSet acc name v
            | none => acc)
          acc →
      p ∈ acc ∨ p.1 ∈ names := by
  intro names
  induction names with
  | nil =>
    intro acc p h
    exact Or.inl h
  | cons n rest ih =>
    intro acc p h
    rw [List.foldl_cons] at h
    rcases ih _ p h with hacc | hrest
    · cases hh : g n with
      | none =>
        rw [hh] at hacc
        exact Or.inl hacc
      | some v =>
        rw [hh] at hacc
        have hacc' : p ∈ (if v == "" then acc else recordSet acc n v) := hacc
        by_cases hv : v == ""
        · rw [if_pos hv] at hacc'
          exact Or.inl hacc'
        · rw [if_neg hv] at hacc'
          rcases mem_recordSet_sub acc n v p hacc' with hin | he
          · exact Or.inl hin
          · cases he
            exact Or.inr (List.mem_cons.mpr (Or.inl rfl))
    · exact Or.inr (List.mem_cons.mpr (Or.inr hrest))

theorem keysNodup_copyFold (g : String → Option String) :
    ∀ (names : List String) (acc : List (String × String)),
      (acc.map Prod.fst).Nodup →
      ((names.foldl
          (fun acc name =>
            match g name with
            | some v => if v == "" then acc else recordSet acc name v
            | none => acc)
          acc).map Prod.fst).Nodup := by
  intro names
  induction names with
  | nil =>
    intro acc h
    exact h
  | cons n rest ih =>
    intro acc h
    rw [List.foldl_cons]
    refine ih _ ?_
    cases hh : g n with
    | none => exact h
    | some v =>
      show (List.map Prod.fst (if v == "" then acc else recordSet acc n v)).Nodup
      by_cases hv : v == ""
      · rw [if_pos hv]
        exact h
      · rw [if_neg hv]
        exact keysNodup_recordSet acc n v h

theorem keysNodup_fixUserAgent (ua : String) (acc : List (String × String))
    (h : (acc.map Prod.fst).Nodup) :
    ((fixUserAgent ua acc).map Prod.fst).Nodup := by
  unfold fixUserAgent
  cases recordGet acc "user-agent" with
  | none => exact keysNodup_recordSet _ _ _ h
  | some v =>
    show (List.map Prod.fst
      (if strStartsWith v "git/" then acc else recordSet acc "user-agent" ua)).Nodup
    by_cases hv : strStartsWith v "git/"
    · rw [if_pos hv]
      exact h
    · rw [if_neg hv]
      exact keysNodup_recordSet _ _ _ h

theorem mem_fixUserAgent_sub (ua : String) (acc : List (String × String))
    (p : String × String) (hp : p ∈ fixUserAgent ua acc) :
    p ∈ acc ∨ p.1 = "user-agent" := by
  unfold fixUserAgent at hp
  cases hrg : recordGet acc "user-agent" with
  | none =>
    rw [hrg] at hp
    rcases mem_recordSet_sub _ _ _ _ hp with hin | he
    · exact Or.inl hin
    · cases he
      exact Or.inr rfl
  | some v =>
    rw [hrg] at hp
    have hp' : p ∈ (if strStartsWith v "git/" then acc
        else recordSet acc "user-agent" ua) := hp
    by_cases hv : strStartsWith v "git/"
    · rw [if_pos hv] at hp'
      exact Or.inl hp'
    · rw [if_neg hv] at hp'
      rcases mem_recordSet_sub _ _ _ _ hp' with hin | he
      · exact Or.inl hin
      · cases he
        exact Or.inr rfl

theorem strStartsWith_git_ne_empty (v : String)
    (h : strStartsWith v "git/" = true) : v ≠ "" := by
  intro he
  subst he
  exact absurd h (by decide)

/-! ## Join-semantics lookup lemmas -/

theorem truthy_truthy (o : Option String) : truthy (truthy o) = truthy o := by
  cases o with
  | none => rfl
  | some v =>
    by_cases hv : v == ""
    · simp [truthy, hv]
    · simp [truthy, hv]

theorem truthy_ne_empty (o : Option String) (v : String)
    (h : truthy o = some v) : v ≠ "" := by
  cases o with
  | none => cases h
  | some w =>
    have h' : (if w == "" then none else some w) = some v := h
    by_cases hw : (w == "") = true
    · rw [if_pos hw] at h'
      cases h'
    · rw [if_neg hw] at h'
      cases h'
      exact fun he => hw (by simp [he])

theorem uaFix_starts_git (o : Option String) (ua : String)
    (huaGit : strStartsWith ua "git/" = true) :
    strStartsWith
      (match o with
        | some v => if strStartsWith v "git/" then v else ua
        | none => ua) "git/" = true := by
  cases o with
  | none => exact huaGit
  | some v =>
    by_cases hv : strStartsWith v "git/"
    · simp [hv]
    · simp [hv, huaGit]

theorem uaFix_truthy_fixpoint (o : Option String) (ua : String)
    (huaGit : strStartsWith ua "git/" = true) :
    (match truthy (some
        (match o with
          | some v => if strStartsWith v "git/" then v else ua
          | none => ua)) with
      | some v => if strStartsWith v "git/" then v else ua
      | none => ua) =
      (match o with
        | some v => if strStartsWith v "git/" then v else ua
        | none => ua) := by
  have hst := uaFix_starts_git o ua huaGit
  generalize hw : (match o with
      | some v => if strStartsWith v "git/" then v else ua
      | none => ua) = w at hst ⊢
  have hne := strStartsWith_git_ne_empty _ hst
  have hbe : (w == "") = false := beq_eq_false_iff_ne.mpr hne
  simp only [truthy, hbe, Bool.false_eq_true, if_false, hst, if_true]

theorem headersGet_Authorization_eq (r : List (String × String)) :
    headersGet r "Authorization" = headersGet r "authorization" := by
  simp only [headersGet,
    show strToLower "Authorization" = "authorization" from by decide,
    show strToLower "authorization" = "authorization" from by decide]

theorem addAuthHeaderJoin_eq (reqHeaders acc : List (String × String)) :
    addAuthHeaderJoin reqHeaders acc =
      match truthy (headersGet reqHeaders "authorization") with
      | some v => recordSet acc "Authorization" v
      | none => acc := by
  simp only [addAuthHeaderJoin, truthy, headersGet_Authorization_eq]
  cases h : headersGet reqHeaders "authorization" with
  | none => simp [h]
  | some v =>
    by_cases hv : v == ""
    · simp [h, hv, Option.getD, beq_iff_eq.mp hv]
    · simp [h, Option.getD, hv]

theorem recordGet_copyJoin (reqHeaders : List (String × String))
    (allowed : List String) (k : String) (hnd : allowed.Nodup) :
    recordGet (copyAllowedHeadersJoin reqHeaders allowed) k =
      (if k ∈ allowed then truthy (headersGet reqHeaders k) else none) := by
  unfold copyAllowedHeadersJoin
  rw [recordGet_copyFold (headersGet reqHeaders) allowed [] k hnd]
  by_cases hk : k ∈ allowed
  · simp only [hk, if_true]
    cases hg : truthy (headersGet reqHeaders k) with
    | some v => rfl
    | none => rfl
  · simp [hk, recordGet]

theorem recordGet_upstreamFoldJoin (allowed : List String) (ua : String)
    (reqHeaders : List (String × String)) (k : String)
    (hnd : allowed.Nodup) (huaMem : "user-agent" ∈ allowed) :
    recordGet (fixUserAgent ua (copyAllowedHeadersJoin reqHeaders allowed)) k =
      (if k = "user-agent" then
        some
          (match truthy (headersGet reqHeaders "user-agent") with
            | some v => if strStartsWith v "git/" then v else ua
            | none => ua)
      else if k ∈ allowed then truthy (headersGet reqHeaders k)
      else none) := by
  by_cases hk : k = "user-agent"
  · subst hk
    rw [recordGet_fixUserAgent_ua,
      recordGet_copyJoin reqHeaders allowed _ hnd, if_pos huaMem]
    simp
  · rw [recordGet_fixUserAgent _ _ _ hk,
      recordGet_copyJoin reqHeaders allowed _ hnd]
    simp [hk]

theorem keysNodup_copyJoin (reqHeaders : List (String × String))
    (allowed : List String) :
    ((copyAllowedHeadersJoin reqHeaders allowed).map Prod.fst).Nodup := by
  unfold copyAllowedHeadersJoin
  exact keysNodup_copyFold (headersGet reqHeaders) allowed [] (by simp)

theorem keysNodup_addAuthHeaderJoin (reqHeaders acc : List (String × String))
    (h : (acc.map Prod.fst).Nodup) :
    ((addAuthHeaderJoin reqHeaders acc).map Prod.fst).Nodup := by
  rw [addAuthHeaderJoin_eq]
  cases truthy (headersGet reqHeaders "authorization") with
  | none => exact h
  | some v => exact keysNodup_recordSet _ _ _ h

theorem keysNodup_prepareJoinWith (allowed : List String) (ua : String)
    (reqHeaders : List (String × String)) :
    ((prepareProxyHeadersJoinWith allowed ua reqHeaders).map Prod.fst).Nodup := by
  unfold prepareProxyHeadersJoinWith
  exact keysNodup_fixUserAgent _ _
    (keysNodup_addAuthHeaderJoin _ _ (keysNodup_copyJoin _ _))

theorem mem_copyJoin_sub (reqHeaders : List (String × String))
    (allowed : List String) (p : String × String)
    (hp : p ∈ copyAllowedHeadersJoin reqHeaders allowed) : p.1 ∈ allowed := by
  unfold copyAllowedHeadersJoin at hp
  rcases mem_copyFold (headersGet reqHeaders) allowed [] p hp with hin | hname
  · cases hin
  · exact hname

theorem lower_keys_upstreamJoin (allowed : List String) (ua : String)
    (reqHeaders : List (String × String))
    (hlow : ∀ m ∈ allowed, strToLower m = m) :
    ∀ p ∈ fixUserAgent ua (copyAllowedHeadersJoin reqHeaders allowed),
      strToLower p.1 = p.1 := by
  intro p hp
  rcases mem_fixUserAgent_sub _ _ _ hp with hin | hua
  · exact hlow p.1 (mem_copyJoin_sub _ _ _ hin)
  · rw [hua]
    decide

theorem headersGet_eq_recordGet_of_lower (r : List (String × String))
    (n : String) (hn : strToLower n = n) (hnd : (r.map Prod.fst).Nodup)
    (hlowkeys : ∀ p ∈ r, strToLower p.1 = p.1) :
    headersGet r n = recordGet r n := by
  induction r with
  | nil => rfl
  | cons p rest ih =>
    rw [List.map_cons] at hnd
    have hnd' := List.nodup_cons.mp hnd
    have hplow : strToLower p.1 = p.1 :=
      hlowkeys p (List.mem_cons.mpr (Or.inl rfl))
    by_cases hpn : p.1 = n
    · have hci : (strToLower p.1 == strToLower n) = true := by
        rw [hplow, hn]
        exact beq_iff_eq.mpr hpn
      have hfil : rest.filter (fun q => strToLower q.1 == strToLower n) = [] := by
        rw [List.filter_eq_nil_iff]
        intro q hq hqci
        have hq1 : q.1 = n := by
          have hql := beq_iff_eq.mp hqci
          rw [hlowkeys q (List.mem_cons.mpr (Or.inr hq)), hn] at hql
          exact hql
        have hqk : q.1 ∈ rest.map Prod.fst := List.mem_map.mpr ⟨q, hq, rfl⟩
        rw [hq1, ← hpn] at hqk
        exact hnd'.1 hqk
      have hfc : (p :: rest).filter (fun q => strToLower q.1 == strToLower n)
          = [p] := by
        simp [List.filter_cons, hci, hfil]
      have hb : (p.1 == n) = true := beq_iff_eq.mpr hpn
      unfold headersGet
      rw [hfc]
      have hi : String.intercalate ", " [p.2] = p.2 := rfl
      show some (String.intercalate ", " [p.2]) = recordGet (p :: rest) n
      rw [hi]
      simp [recordGet, List.find?, hb]
    · have hci : (strToLower p.1 == strToLower n) = false := by
        rw [hplow, hn]
        exact beq_eq_false_iff_ne.mpr hpn
      have hfc : (p :: rest).filter (fun q => strToLower q.1 == strToLower n)
          = rest.filter (fun q => strToLower q.1 == strToLower n) := by
        simp [List.filter_cons, hci]
      have hb : (p.1 == n) = false := beq_eq_false_iff_ne.mpr hpn
      have ihh := ih hnd'.2 (fun q hq => hlowkeys q (List.mem_cons.mpr (Or.inr hq)))
      unfold headersGet at ihh ⊢
      rw [hfc]
      simp only [recordGet, List.find?, hb] at ihh ⊢
      exact ihh

theorem recordGet_upstreamJoin_idem (allowed : List String) (ua : String)
    (reqHeaders : List (String × String)) (k : String)
    (hnd : allowed.Nodup) (hlow : ∀ m ∈ allowed, strToLower m = m)
    (huaMem : "user-agent" ∈ allowed)
    (huaGit : strStartsWith ua "git/" = true) :
    recordGet
        (fixUserAgent ua
          (copyAllowedHeadersJoin
            (fixUserAgent ua (copyAllowedHeadersJoin reqHeaders allowed))
            allowed)) k =
      recordGet (fixUserAgent ua (copyAllowedHeadersJoin reqHeaders allowed)) k := by
  have hynd : ((fixUserAgent ua (copyAllowedHeadersJoin reqHeaders allowed)).map
      Prod.fst).Nodup :=
    keysNodup_fixUserAgent _ _ (keysNodup_copyJoin _ _)
  have hylow := lower_keys_upstreamJoin allowed ua reqHeaders hlow
  rw [recordGet_upstreamFoldJoin allowed ua
      (fixUserAgent ua (copyAllowedHeadersJoin reqHeaders allowed)) k hnd huaMem,
    recordGet_upstreamFoldJoin allowed ua reqHeaders k hnd huaMem]
  by_cases hk1 : k = "user-agent"
  · rw [if_pos hk1, if_pos hk1,
      headersGet_eq_recordGet_of_lower _ "user-agent" (by decide) hynd hylow,
      recordGet_upstreamFoldJoin allowed ua reqHeaders _ hnd huaMem, if_pos rfl]
    exact congrArg some (uaFix_truthy_fixpoint
      (truthy (headersGet reqHeaders "user-agent")) ua huaGit)
  · rw [if_neg hk1, if_neg hk1]
    by_cases hk3 : k ∈ allowed
    · rw [if_pos hk3, if_pos hk3,
        headersGet_eq_recordGet_of_lower _ k (hlow k hk3) hynd hylow,
        recordGet_upstreamFoldJoin allowed ua reqHeaders k hnd huaMem,
        if_neg hk1, if_pos hk3, truthy_truthy]
    · rw [if_neg hk3, if_neg hk3]

theorem recordGet_prepareJoin_idem_noauth (allowed : List String) (ua : String)
    (reqHeaders : List (String × String)) (k : String)
    (hnd : allowed.Nodup) (hlow : ∀ m ∈ allowed, strToLower m = m)
    (huaMem : "user-agent" ∈ allowed) (hauthMem : "authorization" ∈ allowed)
    (huaGit : strStartsWith ua "git/" = true)
    (ha : truthy (headersGet reqHeaders "authorization") = none) :
    recordGet
        (prepareProxyHeadersJoinWith allowed ua
          (prepareProxyHeadersJoinWith allowed ua reqHeaders)) k =
      recordGet (prepareProxyHeadersJoinWith allowed ua reqHeaders) k := by
  have e1 : prepareProxyHeadersJoinWith allowed ua reqHeaders =
      fixUserAgent ua (copyAllowedHeadersJoin reqHeaders allowed) := by
    unfold prepareProxyHeadersJoinWith
    rw [addAuthHeaderJoin_eq, ha]
  have hynd : ((fixUserAgent ua (copyAllowedHeadersJoin reqHeaders allowed)).map
      Prod.fst).Nodup :=
    keysNodup_fixUserAgent _ _ (keysNodup_copyJoin _ _)
  have hylow := lower_keys_upstreamJoin allowed ua reqHeaders hlow
  have ha2 : truthy
      (headersGet (fixUserAgent ua (copyAllowedHeadersJoin reqHeaders allowed))
        "authorization") = none := by
    rw [headersGet_eq_recordGet_of_lower _ "authorization" (by decide) hynd hylow,
      recordGet_upstreamFoldJoin allowed ua reqHeaders _ hnd huaMem,
      if_neg (by decide : ¬ ("authorization" : String) = "user-agent"),
      if_pos hauthMem, ha]
    rfl
  have e2 : prepareProxyHeadersJoinWith allowed ua
      (fixUserAgent ua (copyAllowedHeadersJoin reqHeaders allowed)) =
      fixUserAgent ua
        (copyAllowedHeadersJoin
          (fixUserAgent ua (copyAllowedHeadersJoin reqHeaders allowed))
          allowed) := by
    unfold prepareProxyHeadersJoinWith
    rw [addAuthHeaderJoin_eq, ha2]
  rw [e1, e2]
  exact recordGet_upstreamJoin_idem allowed ua reqHeaders k hnd hlow huaMem huaGit

/-- **C9 (amended)** — under full Fetch `Headers.get` read semantics
(`headersGet`, which joins the values of case-insensitive duplicate names with
`", "`): the single-file port's `prepareUpstreamHeaders` is idempotent as a
header mapping — re-applied to a request carrying exactly the headers it
produced, it assigns the same value to every key (first conjunct) — and its
output's header names are duplicate-free (second conjunct) and all lowercase
(third conjunct), so no header name occurs under two capitalizations.  The
Hono `prepareProxyHeaders` also stores duplicate-free exact keys (fourth
conjunct), but it is idempotent only on requests *without* an authorization
header (fifth conjunct): when one is present, its output carries the value
under both `authorization` and `Authorization`, and on re-application the
joining lookup reads the doubled value `v, v` — see the counterexample. -/
theorem c9_header_transformer_idempotence :
    (∀ (reqHeaders : List (String × String)) (k : String),
      recordGet
          (prepareUpstreamHeadersJoin (prepareUpstreamHeadersJoin reqHeaders)) k =
        recordGet (prepareUpstreamHeadersJoin reqHeaders) k) ∧
    (∀ reqHeaders : List (String × String),
      ((prepareUpstreamHeadersJoin reqHeaders).map Prod.fst).Nodup) ∧
    (∀ (reqHeaders : List (String × String)) (p : String × String),
      p ∈ prepareUpstreamHeadersJoin reqHeaders → strToLower p.1 = p.1) ∧
    (∀ reqHeaders : List (String × String),
      ((prepareProxyHeadersJoin reqHeaders).map Prod.fst).Nodup) ∧
    (∀ (reqHeaders : List (String × String)) (k : String),
      truthy (headersGet reqHeaders "authorization") = none →
      recordGet (prepareProxyHeadersJoin (prepareProxyHeadersJoin reqHeaders)) k =
        recordGet (prepareProxyHeadersJoin reqHeaders) k) := by
  refine ⟨?_, ?_, ?_, ?_, ?_⟩
  · intro reqHeaders k
    exact recordGet_upstreamJoin_idem ALLOWED_HEADERS GIT_USER_AGENT reqHeaders k
      (by decide) (by decide) (by decide) (by decide)
  · intro reqHeaders
    exact keysNodup_fixUserAgent _ _ (keysNodup_copyJoin _ _)
  · intro reqHeaders p hp
    exact lower_keys_upstreamJoin ALLOWED_HEADERS GIT_USER_AGENT reqHeaders
      (by decide) p hp
  · intro reqHeaders
    exact keysNodup_prepareJoinWith _ _ _
  · intro reqHeaders k ha
    exact recordGet_prepareJoin_idem_noauth ALLOWED_PROXY_HEADERS
      DEFAULT_GIT_USER_AGENT reqHeaders k (by decide) (by decide) (by decide)
      (by decide) (by decide) ha

set_option maxRecDepth 8000 in
/-- **C9 counterexample** — fed a request with a capitalized
`Authorization: token abc` header, the Hono `prepareProxyHeaders` output
carries the value under *both* the lowercase key `authorization` (from the
allow-list copy loop) and the capitalized key `Authorization` (from the
defensive re-copy) — one header name under two capitalizations, which the
claim rules out — and the transformer is not idempotent either: re-reading
that output with `Headers.get` joins the two copies into
`token abc, token abc`, so the second application assigns `authorization` the
doubled value where the first application assigned `token abc`. -/
theorem c9_counterexample :
    ("authorization", "token abc") ∈
        prepareProxyHeadersJoin [("Authorization", "token abc")] ∧
    ("Authorization", "token abc") ∈
        prepareProxyHeadersJoin [("Authorization", "token abc")] ∧
    ("authorization" : String) ≠ "Authorization" ∧
    strToLower "Authorization" = strToLower "authorization" ∧
    headersGet (prepareProxyHeadersJoin [("Authorization", "token abc")])
        "authorization" = some "token abc, token abc" ∧
    recordGet
        (prepareProxyHeadersJoin
          (prepareProxyHeadersJoin [("Authorization", "token abc")]))
        "authorization" = some "token abc, token abc" ∧
    recordGet (prepareProxyHeadersJoin [("Authorization", "token abc")])
        "authorization" = some "token abc" := by
  refine ⟨by decide, by decide, by decide, by decide, by decide, by decide,
    by decide⟩

set_option maxRecDepth 8000 in
/-- **C9 witness** — the no-authorization idempotence of `prepareProxyHeaders`
applied at a concrete request carrying only an `Accept` header (its
hypothesis discharged by computation), and the unconditional idempotence of
`prepareUpstreamHeaders` applied at a concrete request carrying a capitalized
`Authorization` header. -/
theorem c9_header_transformer_idempotence_witness :
    truthy (headersGet [("Accept", "*/*")] "authorization") = none ∧
    recordGet
        (prepareProxyHeadersJoin (prepareProxyHeadersJoin [("Accept", "*/*")]))
        "accept" =
      recordGet (prepareProxyHeadersJoin [("Accept", "*/*")]) "accept" ∧
    recordGet
        (prepareUpstreamHeadersJoin
          (prepareUpstreamHeadersJoin [("Authorization", "token abc")]))
        "authorization" =
      recordGet (prepareUpstreamHeadersJoin [("Authorization", "token abc")])
        "authorization" :=
  ⟨by decide,
    c9_header_transformer_idempotence.2.2.2.2 [("Accept", "*/*")] "accept"
      (by decide),
    c9_header_transformer_idempotence.1 [("Authorization", "token abc")]
      "authorization"⟩
